import Mathlib

set_option maxHeartbeats 1000000

/-!
Shallow embedding of the cpt.run task-management core (crates/core):
the capture parser (`parser.rs`), the date resolver (`parse_date_spec`),
the status / mark-done database operations (`database.rs`), the task
services (`services/tasks.rs`) and the project aggregation
(`fetch_projects`).

Modelling conventions:
* `DateTime<Utc>` instants are modelled as `Int` seconds since the Unix
  epoch; `Local::now()` is modelled by a `LocalClock` record holding the
  local civil day index, the second-of-day, and a fixed UTC offset
  (time-zone transitions / DST are not modelled; the source's 09:00
  `and_hms_opt` fallback is dead code because 09:00:00 is always a valid
  `NaiveTime`, so the embedding resolves to 09:00 directly).
* Rust `String` is modelled by Lean `String`, with all operations
  implemented over `String.toList` so that they are structurally
  recursive; byte positions in the source only ever occur at ASCII
  characters, so char-level operations coincide with the byte-level ones.
* Fallible Rust functions returning `anyhow::Result` are modelled with
  `Except String`; error messages keep the offending input where the
  source interpolates it, but the surrounding text is not reproduced
  byte-for-byte.
-/

/-! ## Character and string helpers -/

/-- ASCII punctuation, the `[[:punct:]]` POSIX class used by
`strip_trailing_punctuation`'s regex in `parser.rs`. -/
def isPunctChar (c : Char) : Bool :=
  (33 ≤ c.toNat && c.toNat ≤ 47) || (58 ≤ c.toNat && c.toNat ≤ 64) ||
  (91 ≤ c.toNat && c.toNat ≤ 96) || (123 ≤ c.toNat && c.toNat ≤ 126)

/-- ASCII digit test. -/
def isDigitChar (c : Char) : Bool := 48 ≤ c.toNat && c.toNat ≤ 57

/-- `char::to_ascii_lowercase`. -/
def toAsciiLowerChar (c : Char) : Char :=
  if 65 ≤ c.toNat && c.toNat ≤ 90 then Char.ofNat (c.toNat + 32) else c

/-- `str::to_ascii_lowercase`. -/
def toAsciiLower (s : String) : String := String.mk (s.toList.map toAsciiLowerChar)

/-- `str::trim` (the source only ever meets ASCII whitespace). -/
def strTrim (s : String) : String :=
  String.mk (((s.toList.dropWhile Char.isWhitespace).reverse.dropWhile
    Char.isWhitespace).reverse)

/-- Prefix test on char lists, recursing on the pattern first so that
`listIsPfx [] l` and mismatching heads reduce definitionally even with a
symbolic tail. -/
def listIsPfx : List Char → List Char → Bool
  | [], _ => true
  | _ :: _, [] => false
  | a :: as, b :: bs => if a = b then listIsPfx as bs else false

/-- Char-level `starts_with`. -/
def strStartsWith (s pre : String) : Bool := listIsPfx pre.toList s.toList

/-- Char-level `ends_with` for a single-character pattern. -/
def strEndsWithChar (s : String) (c : Char) : Bool :=
  match s.toList.reverse with
  | [] => false
  | d :: _ => d = c

/-- Drop the first `n` characters of a string. -/
def strDrop (s : String) (n : Nat) : String := String.mk (s.toList.drop n)

/-- Drop the last `n` characters of a string. -/
def strDropRight (s : String) (n : Nat) : String :=
  String.mk (s.toList.take (s.toList.length - n))

/-- Character count (all relevant source positions are ASCII, so this
matches Rust's byte-based `len`). -/
def strLength (s : String) : Nat := s.toList.length

/-- Whitespace splitting discarding empty pieces (`str::split_whitespace`). -/
def splitWsChars : List Char → List Char → List String
  | acc, [] => if acc = [] then [] else [String.mk acc.reverse]
  | acc, c :: rest =>
    if c.isWhitespace then
      (if acc = [] then [] else [String.mk acc.reverse]) ++ splitWsChars [] rest
    else splitWsChars (c :: acc) rest

def splitWs (s : String) : List String := splitWsChars [] s.toList

/-! ## Numeric parsing (`u8`, `u32`, `i64` `FromStr`) -/

def digitsToNat (cs : List Char) : Nat := cs.foldl (fun acc c => acc * 10 + (c.toNat - 48)) 0

/-- A non-empty all-digit run, as required by Rust integer `FromStr`
after the optional sign. -/
def parseNatStrict (cs : List Char) : Option Nat :=
  if cs ≠ [] && cs.all isDigitChar then some (digitsToNat cs) else none

/-- The optional leading `+` accepted by Rust's unsigned `FromStr`. -/
def stripSign (cs : List Char) : List Char :=
  match cs with
  | c :: rest => if c = '+' then rest else c :: rest
  | [] => []

/-- Unsigned integer parsing with an inclusive range bound: optional `+`
sign, then digits; out-of-range values are a parse error, exactly as for
Rust `u8`/`u32` `FromStr`. -/
def parseUnsigned (bound : Nat) (s : String) : Option Nat :=
  match parseNatStrict (stripSign s.toList) with
  | some n => if n ≤ bound then some n else none
  | none => none

def parse_u8 (s : String) : Option Nat := parseUnsigned 255 s

def parse_u32 (s : String) : Option Nat := parseUnsigned 4294967295 s

/-- `i64` `FromStr`: optional sign, digits, `i64` range check. -/
def parse_i64 (s : String) : Option Int :=
  match s.toList with
  | '+' :: rest =>
    match parseNatStrict rest with
    | some n => if n ≤ 9223372036854775807 then some (n : Int) else none
    | none => none
  | '-' :: rest =>
    match parseNatStrict rest with
    | some n => if n ≤ 9223372036854775808 then some (-(n : Int)) else none
    | none => none
  | cs =>
    match parseNatStrict cs with
    | some n => if n ≤ 9223372036854775807 then some (n : Int) else none
    | none => none

example : parse_u8 "300" = none := by decide
example : parse_u8 "+7" = some 7 := by decide
example : parse_i64 "-1" = some (-1) := by decide
example : splitWs "  a  bc " = ["a", "bc"] := by decide
example : strTrim "  hi " = "hi" := by decide
example : toAsciiLower "AbC" = "abc" := by decide

/-! ## Lexicographic string order (Rust `Vec<String>::sort`) -/

/-- Lexicographic comparison of char lists by code point; on UTF-8 data
this coincides with Rust's byte-wise `String` ordering. -/
def lexLe : List Char → List Char → Bool
  | [], _ => true
  | _ :: _, [] => false
  | a :: as, b :: bs =>
    if a.toNat < b.toNat then true
    else if b.toNat < a.toNat then false
    else lexLe as bs

def strLe (s t : String) : Bool := lexLe s.toList t.toList

def strLt (s t : String) : Bool := strLe s t && !(strLe t s)

/-- `Vec::sort` modelled as insertion sort (the sort key orders are what
the claims are about, not the algorithm; equal strings are identical, so
stability is unobservable). -/
def orderedInsertLe (a : String) : List String → List String
  | [] => [a]
  | b :: l => if strLe a b then a :: b :: l else b :: orderedInsertLe a l

def insertionSortLe : List String → List String
  | [] => []
  | a :: l => orderedInsertLe a (insertionSortLe l)

/-- `Vec::dedup`: removes only consecutive duplicates. -/
def dedupConsec : List String → List String
  | [] => []
  | [a] => [a]
  | a :: b :: rest => if a = b then dedupConsec (b :: rest) else a :: dedupConsec (b :: rest)

/-- `v.sort(); v.dedup();` as used on contexts/tags/areas in
`parse_capture`, and on project names in the aggregation model. -/
def sortDedup (l : List String) : List String := dedupConsec (insertionSortLe l)

/-! ## Data model (`model.rs`) -/

inductive TaskStatus
  | inbox | next | waiting | scheduled | someday | done | canceled
deriving DecidableEq, Repr

/-- `TaskStatus::default_for_waiting`. -/
def TaskStatus.default_for_waiting (waiting_fields_present : Bool) : TaskStatus :=
  if waiting_fields_present then .waiting else .inbox

inductive EnergyLevel
  | low | med | high
deriving DecidableEq, Repr

/-- `EnergyLevel::from_str` (accepts `medium` as alias for `med`). -/
def parse_energy (s : String) : Except String EnergyLevel :=
  let l := toAsciiLower s
  if l = "low" then .ok .low
  else if l = "med" then .ok .med
  else if l = "medium" then .ok .med
  else if l = "high" then .ok .high
  else .error ("Unknown energy level " ++ l ++ ", expected low|med|high")

/-- `NewTask` (`model.rs`); the `repeat` field is spelled `repeat_`
because `repeat` is a reserved word in Lean. -/
structure NewTask where
  title : String
  notes : Option String := none
  status : TaskStatus := .inbox
  project : Option String := none
  areas : List String := []
  contexts : List String := []
  tags : List String := []
  priority : Nat := 0
  energy : Option EnergyLevel := none
  time_estimate : Option Nat := none
  due_at : Option Int := none
  defer_until : Option Int := none
  repeat_ : Option String := none
  waiting_on : Option String := none
  waiting_since : Option Int := none
deriving DecidableEq, Repr

/-- A persisted `Task` row (`model.rs`); named `TaskRow` because `Task`
is already a Lean core type. -/
structure TaskRow where
  id : String
  title : String
  notes : Option String := none
  status : TaskStatus := .inbox
  project : Option String := none
  areas : List String := []
  contexts : List String := []
  tags : List String := []
  priority : Nat := 0
  energy : Option EnergyLevel := none
  time_estimate : Option Nat := none
  due_at : Option Int := none
  defer_until : Option Int := none
  repeat_ : Option String := none
  created_at : Int := 0
  updated_at : Int := 0
  completed_at : Option Int := none
  waiting_on : Option String := none
  waiting_since : Option Int := none
deriving DecidableEq, Repr

/-- `impl From<&Task> for NewTask`. -/
def newTaskOfTask (t : TaskRow) : NewTask :=
  { title := t.title, notes := t.notes, status := t.status, project := t.project
    areas := t.areas, contexts := t.contexts, tags := t.tags, priority := t.priority
    energy := t.energy, time_estimate := t.time_estimate, due_at := t.due_at
    defer_until := t.defer_until, repeat_ := t.repeat_, waiting_on := t.waiting_on
    waiting_since := t.waiting_since }

/-- `CaptureInput` (`capture.rs`; exported as `TaskInput`/`CaptureInput`). -/
structure CaptureInput where
  text : List String := []
  notes : Option String := none
  project : Option String := none
  areas : List String := []
  status : Option TaskStatus := none
  contexts : List String := []
  tags : List String := []
  due_at : Option String := none
  defer_until : Option String := none
  time_estimate : Option Nat := none
  energy : Option String := none
  priority : Option Nat := none
  waiting_on : Option String := none
  waiting_since : Option String := none
deriving DecidableEq, Repr

structure ProjectSummary where
  project : String
  total : Nat
  next_actions : Nat
  waiting : Nat
  someday : Nat
deriving DecidableEq, Repr

/-! ## Calendar arithmetic (chrono `NaiveDate` / `Months`) -/

def isLeapYear (y : Int) : Bool := (y % 4 = 0 && y % 100 ≠ 0) || y % 400 = 0

def daysInMonth (y m : Int) : Int :=
  if m = 2 then (if isLeapYear y then 29 else 28)
  else if m = 4 ∨ m = 6 ∨ m = 9 ∨ m = 11 then 30
  else 31

/-- Civil date to day index since 1970-01-01 (Gregorian). -/
def dayFromCivil (y m d : Int) : Int :=
  let y2 := y - (if m ≤ 2 then 1 else 0)
  let era := Int.fdiv y2 400
  let yoe := y2 - era * 400
  let mp := Int.fmod (m + 9) 12
  let doy := Int.fdiv (153 * mp + 2) 5 + d - 1
  let doe := yoe * 365 + Int.fdiv yoe 4 - Int.fdiv yoe 100 + doy
  era * 146097 + doe - 719468

/-- Day index since 1970-01-01 back to a civil `(year, month, day)`. -/
def civilFromDay (z0 : Int) : Int × Int × Int :=
  let z := z0 + 719468
  let era := Int.fdiv z 146097
  let doe := z - era * 146097
  let yoe := Int.fdiv (doe - Int.fdiv doe 1460 + Int.fdiv doe 36524 - Int.fdiv doe 146096) 365
  let y := yoe + era * 400
  let doy := doe - (365 * yoe + Int.fdiv yoe 4 - Int.fdiv yoe 100)
  let mp := Int.fdiv (5 * doy + 2) 153
  let d := doy - Int.fdiv (153 * mp + 2) 5 + 1
  let m := mp + (if mp < 10 then 3 else -9)
  (y + (if m ≤ 2 then 1 else 0), m, d)

/-- chrono `checked_add_months`: add calendar months, clamping the day
to the end of the target month. -/
def addMonthsClamped (day : Int) (n : Int) : Int :=
  match civilFromDay day with
  | (y, m, d) =>
    let total := y * 12 + (m - 1) + n
    let y2 := Int.fdiv total 12
    let m2 := Int.fmod total 12 + 1
    dayFromCivil y2 m2 (min d (daysInMonth y2 m2))

/-! ## Local clock (`Local::now()` with a fixed UTC offset) -/

/-- The local wall clock at the moment of parsing: local civil day index,
second of the local day, and the zone's UTC offset in seconds. -/
structure LocalClock where
  day : Int
  sec : Nat
  offset : Int
deriving DecidableEq, Repr

/-- Convert a local (day, second-of-day) to a UTC instant. -/
def localToUtc (c : LocalClock) (day : Int) (sec : Nat) : Int :=
  day * 86400 + (sec : Int) - c.offset

def nowUtc (c : LocalClock) : Int := localToUtc c c.day c.sec

/-- chrono `Weekday::num_days_from_monday` of a day index
(1970-01-01 was a Thursday, three days from Monday). -/
def num_days_from_monday (day : Int) : Int := (day + 3) % 7

/-! ## Timestamp formats recognized by `parse_date_spec` -/

def expectChar (c : Char) : List Char → Option (List Char)
  | d :: rest => if d = c then some rest else none
  | [] => none

/-- Exactly two digits. -/
def read2 : List Char → Option (Nat × List Char)
  | a :: b :: rest =>
    if isDigitChar a && isDigitChar b then
      some ((a.toNat - 48) * 10 + (b.toNat - 48), rest)
    else none
  | _ => none

/-- Exactly four digits. -/
def read4 (cs : List Char) : Option (Nat × List Char) :=
  match read2 cs with
  | some (hi, rest) =>
    match read2 rest with
    | some (lo, rest2) => some (hi * 100 + lo, rest2)
    | none => none
  | none => none

/-- A greedy digit run of at most `maxw` digits (chrono's flexible
numeric parsing for `%Y`/`%m`/`%d`/`%H`/`%M`). -/
def readDigits (maxw : Nat) (cs : List Char) : Option (Nat × List Char) :=
  let ds := cs.takeWhile isDigitChar
  if ds = [] ∨ ds.length > maxw then none
  else some (digitsToNat ds, cs.drop ds.length)

/-- Optional fractional-second part: either absent, or a dot followed by
at least one digit. -/
def skipFrac : List Char → Option (List Char)
  | '.' :: rest =>
    if rest.takeWhile isDigitChar = [] then none
    else some (rest.dropWhile isDigitChar)
  | cs => some cs

/-- RFC 3339 numeric offset or `Z`, in seconds east of UTC. -/
def readOffset : List Char → Option (Int × List Char)
  | 'Z' :: rest => some (0, rest)
  | 'z' :: rest => some (0, rest)
  | '+' :: rest =>
    match read2 rest with
    | some (h, rest2) =>
      match expectChar ':' rest2 with
      | some rest3 =>
        match read2 rest3 with
        | some (m, rest4) =>
          if h ≤ 23 ∧ m ≤ 59 then some ((h * 3600 + m * 60 : Nat), rest4) else none
        | none => none
      | none => none
    | none => none
  | '-' :: rest =>
    match read2 rest with
    | some (h, rest2) =>
      match expectChar ':' rest2 with
      | some rest3 =>
        match read2 rest3 with
        | some (m, rest4) =>
          if h ≤ 23 ∧ m ≤ 59 then some (-((h * 3600 + m * 60 : Nat) : Int), rest4) else none
        | none => none
      | none => none
    | none => none
  | _ => none

/-- `DateTime::parse_from_rfc3339`, converted to UTC seconds
(fractional seconds are truncated; leap seconds are not modelled). -/
def parse_rfc3339 (s : String) : Option Int := do
  let cs := s.toList
  let (y, cs) ← read4 cs
  let cs ← expectChar '-' cs
  let (mo, cs) ← read2 cs
  let cs ← expectChar '-' cs
  let (d, cs) ← read2 cs
  let cs ← match cs with
    | c :: rest => if c = 'T' ∨ c = 't' then some rest else none
    | [] => none
  let (h, cs) ← read2 cs
  let cs ← expectChar ':' cs
  let (mi, cs) ← read2 cs
  let cs ← expectChar ':' cs
  let (se, cs) ← read2 cs
  let cs ← skipFrac cs
  let (offsec, cs) ← readOffset cs
  if cs = [] ∧ 1 ≤ mo ∧ mo ≤ 12 ∧ 1 ≤ d ∧ (d : Int) ≤ daysInMonth (y : Int) (mo : Int) ∧
      h ≤ 23 ∧ mi ≤ 59 ∧ se ≤ 59 then
    some (dayFromCivil y mo d * 86400 + ((h * 3600 + mi * 60 + se : Nat) : Int) - offsec)
  else none

/-- `NaiveDate::parse_from_str(_, "%Y-%m-%d")`, as a day index. -/
def parse_ymd (s : String) : Option Int := do
  let cs := s.toList
  let (y, cs) ← readDigits 4 cs
  let cs ← expectChar '-' cs
  let (mo, cs) ← readDigits 2 cs
  let cs ← expectChar '-' cs
  let (d, cs) ← readDigits 2 cs
  if cs = [] ∧ 1 ≤ mo ∧ mo ≤ 12 ∧ 1 ≤ d ∧ (d : Int) ≤ daysInMonth (y : Int) (mo : Int) then
    some (dayFromCivil y mo d)
  else none

/-- `NaiveTime::parse_from_str(_, "%H:%M")`, as a second of day. -/
def parse_hm (s : String) : Option Nat := do
  let cs := s.toList
  let (h, cs) ← readDigits 2 cs
  let cs ← expectChar ':' cs
  let (mi, cs) ← readDigits 2 cs
  if cs = [] ∧ h ≤ 23 ∧ mi ≤ 59 then some (h * 3600 + mi * 60) else none

/-- `parse_weekday`, returning `num_days_from_monday` of the weekday. -/
def parse_weekday (label : String) : Option Int :=
  if label = "mon" ∨ label = "monday" then some 0
  else if label = "tue" ∨ label = "tuesday" then some 1
  else if label = "wed" ∨ label = "wednesday" then some 2
  else if label = "thu" ∨ label = "thursday" then some 3
  else if label = "fri" ∨ label = "friday" then some 4
  else if label = "sat" ∨ label = "saturday" then some 5
  else if label = "sun" ∨ label = "sunday" then some 6
  else none

example : parse_rfc3339 "2025-12-24T10:30:00Z" = some (dayFromCivil 2025 12 24 * 86400 + 37800) := by decide
example : parse_ymd "2025-12-24" = some (dayFromCivil 2025 12 24) := by decide
example : dayFromCivil 1970 1 1 = 0 := by decide
example : dayFromCivil 1970 1 5 = 4 := by decide
example : civilFromDay 20000 = (2024, 10, 4) := by decide
example : dayFromCivil 2024 10 4 = 20000 := by decide
example : parse_hm "09:30" = some 34200 := by decide

/-! ## The date resolver (`parse_date_spec`, `parse_relative_spec`) -/

/-- `parse_relative_spec`: `+<N>d|w|m`.  The magnitude is parsed as
`i64`; for the month unit the source converts it to `u32`
(`Months::new(value.try_into()?)`), so negative or over-`u32` magnitudes
fail there. -/
def parse_relative_spec (c : LocalClock) (spec : String) : Except String Int :=
  if strLength spec < 3 then .error ("Relative date " ++ spec ++ " is too short")
  else
    let number_part := strDropRight (strDrop spec 1) 1
    let unit := strDrop spec (strLength spec - 1)
    match parse_i64 number_part with
    | none => .error "Invalid relative offset"
    | some value =>
      if unit = "d" then .ok (nowUtc c + value * 86400)
      else if unit = "w" then .ok (nowUtc c + value * 7 * 86400)
      else if unit = "m" then
        if 0 ≤ value ∧ value ≤ 4294967295 then
          .ok (localToUtc c (addMonthsClamped c.day value) c.sec)
        else .error "out of range integral type conversion attempted"
      else .error ("Unsupported relative unit " ++ unit ++ ", use d, w, or m")

/-- The weekday jump computed at `parser.rs` lines 337-343:
`(target - today).rem_euclid(7)`, promoted to 7 when zero. -/
def weekdayDaysAhead (c : LocalClock) (w : Int) : Int :=
  if (w - num_days_from_monday c.day) % 7 = 0 then 7
  else (w - num_days_from_monday c.day) % 7

/-- `parse_date_spec`: the full resolver precedence chain of
`parser.rs` lines 296-384. -/
def parse_date_spec (c : LocalClock) (spec : String) : Except String Int :=
  let trimmed := strTrim spec
  if trimmed = "" then .error "Date specification cannot be empty"
  else
    let lower := toAsciiLower trimmed
    if lower = "now" then .ok (nowUtc c)
    else if lower = "today" then .ok (localToUtc c c.day 32400)
    else if lower = "tomorrow" then .ok (localToUtc c (c.day + 1) 32400)
    else if strStartsWith lower "+" then parse_relative_spec c lower
    else
      match parse_weekday lower with
      | some w => .ok (localToUtc c (c.day + weekdayDaysAhead c w) 32400)
      | none =>
        match parse_rfc3339 trimmed with
        | some t => .ok t
        | none =>
          match parse_ymd trimmed with
          | some d => .ok (localToUtc c d 32400)
          | none =>
            match parse_hm trimmed with
            | some secs => .ok (localToUtc c c.day secs)
            | none =>
              .error ("Unrecognized date specification " ++ spec ++
                ": try YYYY-MM-DD, today, tomorrow, +3d, mon")

def exceptIsOk {ε α : Type} : Except ε α → Bool
  | .ok _ => true
  | .error _ => false

/-- The exact failure condition of `parse_relative_spec`, stated
independently for the failure-set characterization. -/
def relative_fails (spec : String) : Bool :=
  if strLength spec < 3 then true
  else
    match parse_i64 (strDropRight (strDrop spec 1) 1) with
    | none => true
    | some value =>
      let unit := strDrop spec (strLength spec - 1)
      if unit = "d" ∨ unit = "w" then false
      else if unit = "m" then decide (¬(0 ≤ value ∧ value ≤ 4294967295))
      else true

example : exceptIsOk (parse_date_spec ⟨0, 0, 0⟩ "+3d") = true := by decide
example : parse_date_spec ⟨0, 0, 0⟩ "+3d" = .ok (3 * 86400) := by rfl
example : exceptIsOk (parse_date_spec ⟨0, 0, 0⟩ "+-1m") = false := by decide
example : exceptIsOk (parse_date_spec ⟨0, 0, 0⟩ "+-1w") = true := by decide
example : parse_date_spec ⟨4, 3600, 0⟩ "monday" = .ok (11 * 86400 + 32400) := by rfl
example : parse_date_spec ⟨4, 3600, 0⟩ "tue" = .ok (5 * 86400 + 32400) := by rfl
example : exceptIsOk (parse_date_spec ⟨0, 0, 0⟩ "  ") = false := by decide
example : parse_date_spec ⟨7, 120, 3600⟩ "now" = .ok (7 * 86400 + 120 - 3600) := by rfl
example : parse_date_spec ⟨0, 0, 0⟩ "+1m" = .ok (31 * 86400) := by rfl

/-! ## Capture-parser string helpers (`parser.rs`) -/

/-- `strip_trailing_punctuation`: split off the maximal run of trailing
`[[:punct:]]` characters (`None` when there is none). -/
def strip_trailing_punctuation (input : String) : String × Option String :=
  if input.toList.reverse.takeWhile isPunctChar = [] then (input, none)
  else (String.mk (input.toList.reverse.dropWhile isPunctChar).reverse,
        some (String.mk (input.toList.reverse.takeWhile isPunctChar).reverse))

def isWrapPunct (c : Char) : Bool := c = ',' || c = ';' || c = '.'

/-- `clean_title`: trim wrapping `,`/`;`/`.` characters, then whitespace. -/
def clean_title (value : String) : String :=
  strTrim (String.mk (((value.toList.dropWhile isWrapPunct).reverse.dropWhile
    isWrapPunct).reverse))

/-- `push_trailing`: append the stripped punctuation to the last title
word, or push it as a new word when there is none. -/
def push_trailing (words : List String) (trailing : String) : List String :=
  match words with
  | [] => [trailing]
  | [w] => [w ++ trailing]
  | w :: rest => w :: push_trailing rest trailing

def pushTrailingOpt (words : List String) : Option String → List String
  | none => words
  | some rest => push_trailing words rest

/-- `normalize_label`: trim, strip leading `@`/`#` sigils, lowercase. -/
def normalize_label (value : String) : String :=
  toAsciiLower (String.mk ((strTrim value).toList.dropWhile (fun c => c = '@' || c = '#')))

/-- `normalize_labels`: normalize each label, dropping empties. -/
def normalize_labels (values : List String) : List String :=
  (values.map normalize_label).filter (fun v => v ≠ "")

/-- `merge_lists`' loop: push each secondary value not yet seen. -/
def mergeGo (seen acc : List String) : List String → List String
  | [] => acc
  | v :: rest =>
    if seen.contains v then mergeGo seen acc rest
    else mergeGo (v :: seen) (acc ++ [v]) rest

/-- `merge_lists`: primary values first, then unseen secondary values. -/
def merge_lists (primary secondary : List String) : List String :=
  mergeGo primary primary secondary

/-- `parse_duration_minutes`: bare minutes, `<N>m`, or `<N>h` (x60,
saturating in `u32`). -/
def parse_duration_minutes (spec0 : String) : Except String Nat :=
  let spec := toAsciiLower (strTrim spec0)
  if strEndsWithChar spec 'm' then
    match parse_u32 (strDropRight spec 1) with
    | some n => .ok n
    | none => .error ("Invalid duration " ++ spec)
  else if strEndsWithChar spec 'h' then
    match parse_u32 (strDropRight spec 1) with
    | some n => .ok (min (n * 60) 4294967295)
    | none => .error ("Invalid duration " ++ spec)
  else
    match parse_u32 spec with
    | some n => .ok n
    | none => .error ("Invalid duration " ++ spec)

/-! ## Inline token extraction (`parse_inline_tokens`) -/

/-- The accumulator of `parse_inline_tokens` (`InlineTokens` in
`parser.rs`). -/
structure InlineTokens where
  title_words : List String := []
  project : Option String := none
  contexts : List String := []
  tags : List String := []
  due_at : Option Int := none
  defer_until : Option Int := none
  time_estimate : Option Nat := none
  energy : Option EnergyLevel := none
  priority : Option Nat := none
  waiting_on : Option String := none
  waiting_since : Option Int := none
deriving DecidableEq, Repr

/-- The branch cascade of one `parse_inline_tokens` iteration, with the
`strip_trailing_punctuation` results passed in (`piece` is the stem,
`trailing` the stripped punctuation).  The second state component is the
local `waiting_since_token` variable. -/
def inlineStepCore (c : LocalClock) (st : InlineTokens × Option Int)
    (raw_piece piece : String) (trailing : Option String) :
    Except String (InlineTokens × Option Int) :=
  let r := st.1
  let wtok := st.2
  if strStartsWith piece "@" && strLength piece > 1 then
    .ok ({ r with
      contexts := r.contexts ++ [normalize_label (String.mk (piece.toList.dropWhile (fun c => c = '@')))],
      title_words := pushTrailingOpt r.title_words trailing }, wtok)
  else if strStartsWith piece "+" && strLength piece > 1 then
    .ok ({ r with
      project := some (clean_title (String.mk (piece.toList.dropWhile (fun c => c = '+')))),
      title_words := pushTrailingOpt r.title_words trailing }, wtok)
  else if strStartsWith piece "#" && strLength piece > 1 then
    .ok ({ r with
      tags := r.tags ++ [normalize_label (String.mk (piece.toList.dropWhile (fun c => c = '#')))],
      title_words := pushTrailingOpt r.title_words trailing }, wtok)
  else if strStartsWith piece "due:" then
    match parse_date_spec c (strDrop piece 4) with
    | .error e => .error e
    | .ok t => .ok ({ r with
        due_at := some t,
        title_words := pushTrailingOpt r.title_words trailing }, wtok)
  else if strStartsWith piece "defer:" then
    match parse_date_spec c (strDrop piece 6) with
    | .error e => .error e
    | .ok t => .ok ({ r with
        defer_until := some t,
        title_words := pushTrailingOpt r.title_words trailing }, wtok)
  else if strStartsWith piece "t:" then
    match parse_duration_minutes (strDrop piece 2) with
    | .error e => .error e
    | .ok n => .ok ({ r with
        time_estimate := some n,
        title_words := pushTrailingOpt r.title_words trailing }, wtok)
  else if strStartsWith piece "e:" then
    match parse_energy (strDrop piece 2) with
    | .error e => .error e
    | .ok en => .ok ({ r with
        energy := some en,
        title_words := pushTrailingOpt r.title_words trailing }, wtok)
  else if strStartsWith piece "p:" then
    match parse_u8 (strDrop piece 2) with
    | none => .error ("invalid digit found in string: " ++ strDrop piece 2)
    | some n => .ok ({ r with
        priority := some (min n 3),
        title_words := pushTrailingOpt r.title_words trailing }, wtok)
  else if strStartsWith piece "wait:" then
    let spec := strDrop piece 5
    .ok ({ r with
      waiting_on := if spec = "" then r.waiting_on else some (clean_title spec),
      title_words := pushTrailingOpt r.title_words trailing }, wtok)
  else if strStartsWith piece "since:" then
    match parse_date_spec c (strDrop piece 6) with
    | .error e => .error e
    | .ok t => .ok ({ r with
        title_words := pushTrailingOpt r.title_words trailing }, some t)
  else
    .ok ({ r with title_words := r.title_words ++ [raw_piece] }, wtok)

/-- One iteration of the `parse_inline_tokens` loop: strip the trailing
punctuation, then classify. -/
def inlineStep (c : LocalClock) (st : InlineTokens × Option Int) (raw_piece : String) :
    Except String (InlineTokens × Option Int) :=
  inlineStepCore c st raw_piece (strip_trailing_punctuation raw_piece).1
    (strip_trailing_punctuation raw_piece).2

def inlineLoop (c : LocalClock) :
    InlineTokens × Option Int → List String → Except String (InlineTokens × Option Int)
  | st, [] => .ok st
  | st, p :: rest =>
    match inlineStep c st p with
    | .error e => .error e
    | .ok st2 => inlineLoop c st2 rest

/-- `parse_inline_tokens`: fold the classification loop over the
whitespace tokens, then install the `since:` value when `waiting_since`
is still unset. -/
def parse_inline_tokens (c : LocalClock) (text : String) : Except String InlineTokens :=
  match inlineLoop c ({}, none) (splitWs text) with
  | .error e => .error e
  | .ok (st, wtok) =>
    .ok (if st.waiting_since = none then { st with waiting_since := wtok } else st)

/-! ## `parse_capture` -/

structure ParsedTask where
  task : NewTask
  title : String
  status : TaskStatus
deriving DecidableEq, Repr

/-- The structured-override resolution for `energy`
(`input.energy` wins, else the inline value). -/
def resolveEnergy (lbl : Option String) (inline : Option EnergyLevel) :
    Except String (Option EnergyLevel) :=
  match lbl with
  | some l =>
    match parse_energy l with
    | .ok e => .ok (some e)
    | .error e => .error e
  | none => .ok inline

/-- The structured-override resolution for date fields (the structured
spec string wins and is resolved, else the inline value is used). -/
def resolveDate (c : LocalClock) (spec : Option String) (inline : Option Int) :
    Except String (Option Int) :=
  match spec with
  | some s =>
    match parse_date_spec c s with
    | .ok t => .ok (some t)
    | .error e => .error e
  | none => .ok inline

def optionOr {α : Type} : Option α → Option α → Option α
  | some x, _ => some x
  | none, b => b

/-- `parse_capture` (`parser.rs` lines 46-139). -/
def parse_capture (c : LocalClock) (input : CaptureInput) : Except String ParsedTask :=
  let raw_text := String.intercalate " " input.text
  match parse_inline_tokens c raw_text with
  | .error e => .error e
  | .ok inline =>
    let contexts := sortDedup (merge_lists inline.contexts (normalize_labels input.contexts))
    let tags := sortDedup (merge_lists inline.tags (normalize_labels input.tags))
    let areas := sortDedup (normalize_labels input.areas)
    let project := optionOr (input.project.map strTrim) inline.project
    let priority :=
      match input.priority with
      | some p => min p 3
      | none => inline.priority.getD 0
    match resolveEnergy input.energy inline.energy with
    | .error e => .error e
    | .ok energy =>
      match resolveDate c input.due_at inline.due_at with
      | .error e => .error e
      | .ok due_at =>
        match resolveDate c input.defer_until inline.defer_until with
        | .error e => .error e
        | .ok defer_until =>
          let time_estimate := optionOr input.time_estimate inline.time_estimate
          let waiting_on := optionOr (input.waiting_on.map strTrim) inline.waiting_on
          match resolveDate c input.waiting_since inline.waiting_since with
          | .error e => .error e
          | .ok waiting_since =>
            let status :=
              match input.status with
              | some s => s
              | none => TaskStatus.default_for_waiting waiting_on.isSome
            let title0 := strTrim (String.intercalate " " inline.title_words)
            let title := if title0 = "" then strTrim raw_text else title0
            if title = "" then .error "Task title cannot be empty after parsing tokens"
            else
              .ok { task := { title := title, notes := input.notes, status := status,
                              project := project, areas := areas, contexts := contexts,
                              tags := tags, priority := priority, energy := energy,
                              time_estimate := time_estimate, due_at := due_at,
                              defer_until := defer_until, repeat_ := none,
                              waiting_on := waiting_on, waiting_since := waiting_since },
                    title := title, status := status }

example :
    (parse_capture ⟨0, 0, 0⟩
      { text := ["Buy", "milk", "@store", "#errand", "p:9"] }).toOption.map
      (fun r => (r.title, r.task.priority, r.task.contexts, r.task.tags)) =
    some ("Buy milk", 3, ["store"], ["errand"]) := by decide

example :
    (parse_capture ⟨0, 0, 0⟩
      { text := ["Follow", "up", "wait:Alex"] }).toOption.map
      (fun r => (r.status, r.task.waiting_on)) =
    some (.waiting, some "Alex") := by decide

example :
    (parse_capture ⟨0, 0, 0⟩ { text := ["Check", "in"], status := some .next }).toOption.map
      (fun r => r.status) = some .next := by decide

example :
    (parse_capture ⟨0, 0, 0⟩ { text := ["@home", "#x"] }).toOption.map (fun r => r.title) =
    some "@home #x" := by decide

example : exceptIsOk (parse_capture ⟨0, 0, 0⟩ { text := [] }) = false := by decide

example :
    (parse_capture ⟨0, 0, 0⟩
      { text := ["Email", "Alice", "@work.", "+Sales"], tags := ["#q4"] }).toOption.map
      (fun r => (r.title, r.task.project, r.task.contexts, r.task.tags)) =
    some ("Email Alice.", some "Sales", ["work"], ["q4"]) := by decide

/-! ## Status updates and task update (`database.rs`) -/

/-- `Database::update_status`: one `UPDATE tasks SET status, completed_at,
updated_at` applied to a row (`database.rs` lines 134-159). -/
def update_status (status : TaskStatus) (completed_at : Option Int) (updated_ts : Int)
    (t : TaskRow) : TaskRow :=
  { t with status := status, completed_at := completed_at, updated_at := updated_ts }

/-- `Database::mark_done`: status `done` with `completed_at`
unconditionally set to the current instant (`database.rs` lines 117-120). -/
def mark_done (now updated_ts : Int) (t : TaskRow) : TaskRow :=
  update_status .done (some now) updated_ts t

def mark_next (updated_ts : Int) (t : TaskRow) : TaskRow :=
  update_status .next none updated_ts t

def mark_someday (updated_ts : Int) (t : TaskRow) : TaskRow :=
  update_status .someday none updated_ts t

def mark_inbox (updated_ts : Int) (t : TaskRow) : TaskRow :=
  update_status .inbox none updated_ts t

/-- `Database::update_task` applied to an existing row (`database.rs`
lines 190-266): `notes`/`repeat` fall back to the existing value when
the update carries `None`, `areas` falls back when the update's list is
empty, `completed_at` is preserved when the new status is `Done` (else
set to now) and cleared otherwise, and every other column is
overwritten. -/
def update_task (now : Int) (existing : TaskRow) (updated : NewTask) : TaskRow :=
  { id := existing.id
    title := updated.title
    notes := optionOr updated.notes existing.notes
    status := updated.status
    project := updated.project
    areas := if updated.areas = [] then existing.areas else updated.areas
    contexts := updated.contexts
    tags := updated.tags
    priority := updated.priority
    energy := updated.energy
    time_estimate := updated.time_estimate
    due_at := updated.due_at
    defer_until := updated.defer_until
    repeat_ := optionOr updated.repeat_ existing.repeat_
    created_at := existing.created_at
    updated_at := now
    completed_at :=
      if updated.status = .done then optionOr existing.completed_at (some now) else none
    waiting_on := updated.waiting_on
    waiting_since := updated.waiting_since }

/-! ## Task services (`services/tasks.rs`) -/

/-- `normalize_list`'s loop: trim, drop empties, deduplicate by the
ASCII-lowercased key, keeping the first occurrence's original casing. -/
def nlGo (seen : List String) : List String → List String
  | [] => []
  | token :: rest =>
    if strTrim token = "" then nlGo seen rest
    else if seen.contains (toAsciiLower (strTrim token)) then nlGo seen rest
    else strTrim token :: nlGo (toAsciiLower (strTrim token) :: seen) rest

def normalize_list (tokens : List String) : List String := nlGo [] tokens

/-- `TasksService::update_contexts`: replace contexts with the
normalized list and persist via `update_task`. -/
def update_contexts (now : Int) (task : TaskRow) (contexts : List String) : TaskRow :=
  update_task now task { newTaskOfTask task with contexts := normalize_list contexts }

/-- `TasksService::update_tags`. -/
def update_tags (now : Int) (task : TaskRow) (tags : List String) : TaskRow :=
  update_task now task { newTaskOfTask task with tags := normalize_list tags }

/-! ## Project aggregation (`Database::fetch_projects`) -/

/-- The `WHERE project IS NOT NULL AND project <> ''` clause plus the
optional `AND status = ?` filter. -/
def matchesProjects (statusFilter : Option TaskStatus) (t : TaskRow) : Bool :=
  (match t.project with
   | some p => p ≠ ""
   | none => false) &&
  (match statusFilter with
   | some st => t.status = st
   | none => true)

/-- One row of the aggregation loop (`database.rs` lines 345-351):
add the group count to `total` and to the status-specific field. -/
def bumpSummary (s : ProjectSummary) (status : TaskStatus) (count : Nat) : ProjectSummary :=
  let s2 := { s with total := s.total + count }
  match status with
  | .next => { s2 with next_actions := s2.next_actions + count }
  | .waiting => { s2 with waiting := s2.waiting + count }
  | .someday => { s2 with someday := s2.someday + count }
  | _ => s2

/-- The accumulated summary of one project over the matching rows.  The
SQL `GROUP BY (project, status)` plus the `HashMap` fold of the source
is rendered as a per-project fold over the individual matching rows
(each row contributes count 1; grouping only pre-adds equal
contributions). -/
def buildSummary (p : String) (rows : List TaskRow) : ProjectSummary :=
  rows.foldl
    (fun s t => if t.project = some p then bumpSummary s t.status 1 else s)
    { project := p, total := 0, next_actions := 0, waiting := 0, someday := 0 }

/-- `Database::fetch_projects`: one `ProjectSummary` per distinct
non-empty project among the matching rows, sorted by project name
(the source sorts the `HashMap` values with `sort_by` on the unique
project key, so the output is exactly the key-sorted list). -/
def fetch_projects (statusFilter : Option TaskStatus) (tasks : List TaskRow) :
    List ProjectSummary :=
  let matching := tasks.filter (matchesProjects statusFilter)
  let projects := sortDedup (matching.filterMap (fun t => t.project))
  projects.map (fun p => buildSummary p matching)

example :
    fetch_projects none
      [{ id := "1", title := "a", status := .next, project := some "Acme" },
       { id := "2", title := "b", status := .waiting, project := some "Acme" },
       { id := "3", title := "c", status := .someday, project := some "Acme" }] =
    [{ project := "Acme", total := 3, next_actions := 1, waiting := 1, someday := 1 }] := by
  decide

/-! ## Sample rows used by concrete witnesses / counterexamples -/

def doneSampleTask : TaskRow :=
  { id := "t1", title := "ship release", status := .done, completed_at := some 100,
    created_at := 50, updated_at := 100 }

def repeatSampleTask : TaskRow :=
  { id := "t2", title := "water plants", status := .next, repeat_ := some "weekly",
    created_at := 10, updated_at := 10 }

def plainUpdate : NewTask :=
  { title := "water plants", status := .next, repeat_ := none }

/-! ## C1 -/

/-- C1 (amended): `mark_done` always sets `completed_at` to the current
instant, overwriting an existing value (so re-marking Done at a later
instant changes it); the `update_task` edit path preserves an existing
`completed_at` when the new status is Done (setting it to now only when
unset) and clears it for any non-Done status, as do the non-Done status
marks such as `mark_inbox`. -/
theorem c1_completed_at_semantics :
    (∀ (now updated_ts : Int) (t : TaskRow),
      (mark_done now updated_ts t).completed_at = some now) ∧
    (∀ (now : Int) (t : TaskRow) (u : NewTask), u.status = .done →
      (update_task now t u).completed_at = optionOr t.completed_at (some now)) ∧
    (∀ (now : Int) (t : TaskRow) (u : NewTask), u.status ≠ .done →
      (update_task now t u).completed_at = none) ∧
    (∀ (updated_ts : Int) (t : TaskRow), (mark_inbox updated_ts t).completed_at = none) := by
  refine ⟨fun _ _ _ => rfl, fun now t u h => ?_, fun now t u h => ?_, fun _ _ => rfl⟩
  · simp [update_task, h]
  · simp [update_task, h]

/-- Witness for C1 at concrete inputs. -/
theorem c1_completed_at_semantics_witness :
    (mark_done 200 201 doneSampleTask).completed_at = some 200 ∧
    (update_task 300 doneSampleTask { title := "ship release", status := .done }).completed_at =
      some 100 ∧
    (update_task 300 doneSampleTask { title := "ship release", status := .inbox }).completed_at =
      none ∧
    (mark_inbox 400 doneSampleTask).completed_at = none :=
  ⟨c1_completed_at_semantics.1 200 201 doneSampleTask,
   c1_completed_at_semantics.2.1 300 doneSampleTask
     { title := "ship release", status := .done } (by decide),
   c1_completed_at_semantics.2.2.1 300 doneSampleTask
     { title := "ship release", status := .inbox } (by decide),
   c1_completed_at_semantics.2.2.2 400 doneSampleTask⟩

/-- Counterexample to C1 as stated: a task already Done with
`completed_at = 100` is marked Done again at instant 200, and
`completed_at` changes to 200 instead of being preserved. -/
theorem c1_mark_done_overwrites_counterexample :
    doneSampleTask.status = .done ∧ doneSampleTask.completed_at = some 100 ∧
    (mark_done 200 200 doneSampleTask).completed_at = some 200 ∧
    (mark_done 200 200 doneSampleTask).completed_at ≠ doneSampleTask.completed_at := by
  refine ⟨rfl, rfl, rfl, by decide⟩

/-! ## C10 -/

/-- C10 (amended): `update_task` never clears `notes`, `repeat`, or (for
an empty supplied list) `areas` — each falls back to the stored value —
while `completed_at` is derived from the new status rather than
supplied, `id`/`created_at` are kept, `updated_at` is set to now, and
all remaining fields are overwritten with the supplied values. -/
theorem c10_update_task_frame :
    (∀ (now : Int) (t : TaskRow) (u : NewTask), u.notes = none →
      (update_task now t u).notes = t.notes) ∧
    (∀ (now : Int) (t : TaskRow) (u : NewTask) (x : String), u.notes = some x →
      (update_task now t u).notes = some x) ∧
    (∀ (now : Int) (t : TaskRow) (u : NewTask), u.areas = [] →
      (update_task now t u).areas = t.areas) ∧
    (∀ (now : Int) (t : TaskRow) (u : NewTask), u.areas ≠ [] →
      (update_task now t u).areas = u.areas) ∧
    (∀ (now : Int) (t : TaskRow) (u : NewTask), u.repeat_ = none →
      (update_task now t u).repeat_ = t.repeat_) ∧
    (∀ (now : Int) (t : TaskRow) (u : NewTask),
      (update_task now t u).title = u.title ∧
      (update_task now t u).status = u.status ∧
      (update_task now t u).project = u.project ∧
      (update_task now t u).contexts = u.contexts ∧
      (update_task now t u).tags = u.tags ∧
      (update_task now t u).priority = u.priority ∧
      (update_task now t u).energy = u.energy ∧
      (update_task now t u).time_estimate = u.time_estimate ∧
      (update_task now t u).due_at = u.due_at ∧
      (update_task now t u).defer_until = u.defer_until ∧
      (update_task now t u).waiting_on = u.waiting_on ∧
      (update_task now t u).waiting_since = u.waiting_since ∧
      (update_task now t u).id = t.id ∧
      (update_task now t u).created_at = t.created_at ∧
      (update_task now t u).updated_at = now) := by
  refine ⟨fun now t u h => by simp [update_task, h, optionOr],
          fun now t u x h => by simp [update_task, h, optionOr],
          fun now t u h => by simp [update_task, h],
          fun now t u h => by simp [update_task, h],
          fun now t u h => by simp [update_task, h, optionOr],
          fun now t u => ?_⟩
  refine ⟨rfl, rfl, rfl, rfl, rfl, rfl, rfl, rfl, rfl, rfl, rfl, rfl, rfl, rfl, rfl⟩

/-- Witness for C10 at concrete inputs. -/
theorem c10_update_task_frame_witness :
    (update_task 20 repeatSampleTask plainUpdate).notes = repeatSampleTask.notes ∧
    (update_task 20 repeatSampleTask { plainUpdate with notes := some "n" }).notes = some "n" ∧
    (update_task 20 repeatSampleTask plainUpdate).areas = repeatSampleTask.areas ∧
    (update_task 20 repeatSampleTask { plainUpdate with areas := ["home"] }).areas = ["home"] ∧
    (update_task 20 repeatSampleTask plainUpdate).repeat_ = repeatSampleTask.repeat_ ∧
    (update_task 20 repeatSampleTask plainUpdate).title = plainUpdate.title :=
  ⟨c10_update_task_frame.1 20 repeatSampleTask plainUpdate rfl,
   c10_update_task_frame.2.1 20 repeatSampleTask
     { plainUpdate with notes := some "n" } "n" rfl,
   c10_update_task_frame.2.2.1 20 repeatSampleTask plainUpdate rfl,
   c10_update_task_frame.2.2.2.1 20 repeatSampleTask
     { plainUpdate with areas := ["home"] } (by decide),
   c10_update_task_frame.2.2.2.2.1 20 repeatSampleTask plainUpdate rfl,
   (c10_update_task_frame.2.2.2.2.2 20 repeatSampleTask plainUpdate).1⟩

/-- Counterexample to C10 as stated: the claim says every field other
than `notes` and `areas` is overwritten with the supplied value, but an
update carrying `repeat = None` leaves the stored repeat `"weekly"` in
place instead of clearing it. -/
theorem c10_repeat_not_overwritten_counterexample :
    plainUpdate.repeat_ = none ∧ repeatSampleTask.repeat_ = some "weekly" ∧
    (update_task 20 repeatSampleTask plainUpdate).repeat_ = some "weekly" ∧
    (update_task 20 repeatSampleTask plainUpdate).repeat_ ≠ plainUpdate.repeat_ := by
  refine ⟨rfl, rfl, rfl, by decide⟩

/-! ## Order lemmas for the string sort -/

theorem char_eq_of_toNat {a b : Char} (h : a.toNat = b.toNat) : a = b := by
  apply Char.eq_of_val_eq
  apply UInt32.toNat.inj
  exact h

theorem lexLe_total : ∀ a b : List Char, lexLe a b = true ∨ lexLe b a = true := by
  intro a
  induction a with
  | nil => intro b; left; rfl
  | cons x xs ih =>
    intro b
    cases b with
    | nil => right; rfl
    | cons y ys =>
      by_cases hxy : x.toNat < y.toNat
      · left; simp [lexLe, hxy]
      · by_cases hyx : y.toNat < x.toNat
        · right; simp [lexLe, hyx]
        · have := ih ys
          rcases this with h | h
          · left; simp [lexLe, hxy, hyx, h]
          · right; simp [lexLe, hxy, hyx, h]

theorem lexLe_trans : ∀ a b c : List Char,
    lexLe a b = true → lexLe b c = true → lexLe a c = true := by
  intro a
  induction a with
  | nil => intro b c _ _; rfl
  | cons x xs ih =>
    intro b c hab hbc
    cases b with
    | nil => simp [lexLe] at hab
    | cons y ys =>
      cases c with
      | nil => simp [lexLe] at hbc
      | cons z zs =>
        simp only [lexLe] at hab hbc ⊢
        split at hab
        · rename_i hxy
          split at hbc
          · rename_i hyz
            have : x.toNat < z.toNat := Nat.lt_trans hxy hyz
            simp [this]
          · rename_i hyz
            split at hbc
            · exact absurd hbc (by simp)
            · rename_i hzy
              have : x.toNat < z.toNat := by omega
              simp [this]
        · rename_i hxy
          split at hab
          · exact absurd hab (by simp)
          · rename_i hyx
            have hxyeq : x.toNat = y.toNat := by omega
            split at hbc
            · rename_i hyz
              have : x.toNat < z.toNat := by omega
              simp [this]
            · rename_i hyz
              split at hbc
              · exact absurd hbc (by simp)
              · rename_i hzy
                have hxz : ¬ x.toNat < z.toNat := by omega
                have hzx : ¬ z.toNat < x.toNat := by omega
                simp only [hxz, hzx, if_false]
                exact ih ys zs hab hbc

theorem lexLe_antisymm : ∀ a b : List Char,
    lexLe a b = true → lexLe b a = true → a = b := by
  intro a
  induction a with
  | nil =>
    intro b _ hba
    cases b with
    | nil => rfl
    | cons y ys => simp [lexLe] at hba
  | cons x xs ih =>
    intro b hab hba
    cases b with
    | nil => simp [lexLe] at hab
    | cons y ys =>
      simp only [lexLe] at hab hba
      split at hab
      · rename_i hxy
        have : ¬ y.toNat < x.toNat := by omega
        simp [this, Nat.lt_irrefl, hxy] at hba
      · rename_i hxy
        split at hab
        · exact absurd hab (by simp)
        · rename_i hyx
          have hxyeq : x.toNat = y.toNat := by omega
          have hx : x = y := char_eq_of_toNat hxyeq
          subst hx
          simp [Nat.lt_irrefl] at hba
          rw [ih ys hab hba]

theorem strLe_total (a b : String) : strLe a b = true ∨ strLe b a = true :=
  lexLe_total a.toList b.toList

theorem strLe_trans {a b c : String} (h1 : strLe a b = true) (h2 : strLe b c = true) :
    strLe a c = true :=
  lexLe_trans a.toList b.toList c.toList h1 h2

theorem strMk_toList (s : String) : String.mk s.toList = s := by cases s; rfl

theorem strLe_antisymm {a b : String} (h1 : strLe a b = true) (h2 : strLe b a = true) :
    a = b := by
  have := lexLe_antisymm a.toList b.toList h1 h2
  have h3 : String.mk a.toList = String.mk b.toList := by rw [this]
  rwa [strMk_toList, strMk_toList] at h3

theorem strLe_refl (a : String) : strLe a a = true := by
  rcases strLe_total a a with h | h <;> exact h

/-! ## Sortedness of the insertion sort and of `sortDedup` -/

def sortedLe (l : List String) : Prop := l.Pairwise (fun a b => strLe a b = true)

theorem mem_orderedInsertLe {x a : String} : ∀ l : List String,
    x ∈ orderedInsertLe a l ↔ x = a ∨ x ∈ l := by
  intro l
  induction l with
  | nil => simp [orderedInsertLe]
  | cons b t ih =>
    simp only [orderedInsertLe]
    split
    · simp [List.mem_cons]
    · simp only [List.mem_cons, ih]
      tauto

theorem sorted_orderedInsertLe {a : String} : ∀ {l : List String},
    sortedLe l → sortedLe (orderedInsertLe a l) := by
  intro l
  induction l with
  | nil => intro _; simp [orderedInsertLe, sortedLe]
  | cons b t ih =>
    intro h
    have hbt := (List.pairwise_cons.mp h).1
    have ht := (List.pairwise_cons.mp h).2
    simp only [orderedInsertLe]
    split
    · rename_i hab
      apply List.pairwise_cons.mpr
      constructor
      · intro y hy
        rcases List.mem_cons.mp hy with rfl | hyt
        · exact hab
        · exact strLe_trans hab (hbt y hyt)
      · exact h
    · rename_i hab
      have hba : strLe b a = true := by
        rcases strLe_total a b with h1 | h1
        · exact absurd h1 hab
        · exact h1
      apply List.pairwise_cons.mpr
      constructor
      · intro y hy
        rcases (mem_orderedInsertLe t).mp hy with rfl | hyt
        · exact hba
        · exact hbt y hyt
      · exact ih ht

theorem sorted_insertionSortLe : ∀ l : List String, sortedLe (insertionSortLe l) := by
  intro l
  induction l with
  | nil => simp [insertionSortLe, sortedLe]
  | cons a t ih => exact sorted_orderedInsertLe ih

theorem mem_insertionSortLe {x : String} : ∀ l : List String,
    x ∈ insertionSortLe l ↔ x ∈ l := by
  intro l
  induction l with
  | nil => simp [insertionSortLe]
  | cons a t ih =>
    simp [insertionSortLe, mem_orderedInsertLe, ih]

theorem mem_dedupConsec {x : String} : ∀ l : List String, x ∈ dedupConsec l ↔ x ∈ l := by
  intro l
  induction l with
  | nil => simp [dedupConsec]
  | cons a t ih =>
    cases t with
    | nil => simp [dedupConsec]
    | cons b rest =>
      simp only [dedupConsec]
      split
      · rename_i hab
        subst hab
        simp only [ih, List.mem_cons]
        tauto
      · simp [List.mem_cons, ih]

/-- After sorting, consecutive dedup yields a strictly increasing list. -/
theorem dedupConsec_strict : ∀ l : List String, sortedLe l →
    (dedupConsec l).Pairwise (fun a b => strLe a b = true ∧ a ≠ b) := by
  intro l
  induction l with
  | nil => intro _; simp [dedupConsec]
  | cons a t ih =>
    intro h
    have hat := (List.pairwise_cons.mp h).1
    have ht := (List.pairwise_cons.mp h).2
    cases t with
    | nil => simp [dedupConsec]
    | cons b rest =>
      simp only [dedupConsec]
      split
      · rename_i hab
        subst hab
        exact ih ht
      · rename_i hab
        apply List.pairwise_cons.mpr
        refine ⟨?_, ih ht⟩
        intro y hy
        have hyt : y ∈ b :: rest := (mem_dedupConsec _).mp hy
        have hay : strLe a y = true := hat y hyt
        refine ⟨hay, ?_⟩
        rintro rfl
        rcases List.mem_cons.mp hyt with rfl | hyrest
        · exact hab rfl
        · have hbt := (List.pairwise_cons.mp ht).1
          have h1 : strLe b a = true := hbt a hyrest
          have h2 : strLe a b = true := hat b (List.mem_cons_self b rest)
          exact hab (strLe_antisymm h2 h1)

theorem sortDedup_strict (l : List String) :
    (sortDedup l).Pairwise (fun a b => strLe a b = true ∧ a ≠ b) :=
  dedupConsec_strict _ (sorted_insertionSortLe l)

theorem sortDedup_nodup (l : List String) : (sortDedup l).Nodup :=
  (sortDedup_strict l).imp (fun h => h.2)

theorem mem_sortDedup {x : String} (l : List String) : x ∈ sortDedup l ↔ x ∈ l := by
  unfold sortDedup
  rw [mem_dedupConsec, mem_insertionSortLe]

/-! ## C9 helper lemmas -/

theorem strLt_of_le_ne {a b : String} (h1 : strLe a b = true) (h2 : a ≠ b) :
    strLt a b = true := by
  unfold strLt
  have : strLe b a = false := by
    by_contra hc
    have hba : strLe b a = true := by
      cases hx : strLe b a
      · exact absurd hx hc
      · rfl
    exact h2 (strLe_antisymm h1 hba)
  simp [h1, this]

theorem bump_project (s : ProjectSummary) (st : TaskStatus) (n : Nat) :
    (bumpSummary s st n).project = s.project := by
  cases st <;> rfl

theorem bump_total (s : ProjectSummary) (st : TaskStatus) (n : Nat) :
    (bumpSummary s st n).total = s.total + n := by
  cases st <;> rfl

theorem bump_next (s : ProjectSummary) (st : TaskStatus) (n : Nat) :
    (bumpSummary s st n).next_actions =
      s.next_actions + (if st = .next then n else 0) := by
  cases st <;> simp [bumpSummary]

theorem bump_waiting (s : ProjectSummary) (st : TaskStatus) (n : Nat) :
    (bumpSummary s st n).waiting = s.waiting + (if st = .waiting then n else 0) := by
  cases st <;> simp [bumpSummary]

theorem bump_someday (s : ProjectSummary) (st : TaskStatus) (n : Nat) :
    (bumpSummary s st n).someday = s.someday + (if st = .someday then n else 0) := by
  cases st <;> simp [bumpSummary]

theorem buildFold_project (p : String) : ∀ (rows : List TaskRow) (s : ProjectSummary),
    (rows.foldl (fun s t => if t.project = some p then bumpSummary s t.status 1 else s)
      s).project = s.project := by
  intro rows
  induction rows with
  | nil => intro s; rfl
  | cons t rest ih =>
    intro s
    simp only [List.foldl_cons]
    by_cases h : t.project = some p
    · rw [if_pos h, ih, bump_project]
    · rw [if_neg h, ih]

theorem buildFold_total (p : String) : ∀ (rows : List TaskRow) (s : ProjectSummary),
    (rows.foldl (fun s t => if t.project = some p then bumpSummary s t.status 1 else s)
      s).total = s.total + rows.countP (fun t => decide (t.project = some p)) := by
  intro rows
  induction rows with
  | nil => intro s; simp
  | cons t rest ih =>
    intro s
    simp only [List.foldl_cons, List.countP_cons]
    by_cases h : t.project = some p
    · rw [if_pos h, ih, bump_total]
      simp [h]
      omega
    · rw [if_neg h, ih]
      simp [h]

theorem buildFold_next (p : String) : ∀ (rows : List TaskRow) (s : ProjectSummary),
    (rows.foldl (fun s t => if t.project = some p then bumpSummary s t.status 1 else s)
      s).next_actions =
      s.next_actions +
        rows.countP (fun t => decide (t.project = some p ∧ t.status = .next)) := by
  intro rows
  induction rows with
  | nil => intro s; simp
  | cons t rest ih =>
    intro s
    simp only [List.foldl_cons, List.countP_cons]
    by_cases h : t.project = some p
    · rw [if_pos h, ih, bump_next]
      by_cases hs : t.status = .next
      · simp [h, hs]; omega
      · simp [h, hs]
    · rw [if_neg h, ih]
      simp [h]

theorem buildFold_waiting (p : String) : ∀ (rows : List TaskRow) (s : ProjectSummary),
    (rows.foldl (fun s t => if t.project = some p then bumpSummary s t.status 1 else s)
      s).waiting =
      s.waiting +
        rows.countP (fun t => decide (t.project = some p ∧ t.status = .waiting)) := by
  intro rows
  induction rows with
  | nil => intro s; simp
  | cons t rest ih =>
    intro s
    simp only [List.foldl_cons, List.countP_cons]
    by_cases h : t.project = some p
    · rw [if_pos h, ih, bump_waiting]
      by_cases hs : t.status = .waiting
      · simp [h, hs]; omega
      · simp [h, hs]
    · rw [if_neg h, ih]
      simp [h]

theorem buildFold_someday (p : String) : ∀ (rows : List TaskRow) (s : ProjectSummary),
    (rows.foldl (fun s t => if t.project = some p then bumpSummary s t.status 1 else s)
      s).someday =
      s.someday +
        rows.countP (fun t => decide (t.project = some p ∧ t.status = .someday)) := by
  intro rows
  induction rows with
  | nil => intro s; simp
  | cons t rest ih =>
    intro s
    simp only [List.foldl_cons, List.countP_cons]
    by_cases h : t.project = some p
    · rw [if_pos h, ih, bump_someday]
      by_cases hs : t.status = .someday
      · simp [h, hs]; omega
      · simp [h, hs]
    · rw [if_neg h, ih]
      simp [h]

theorem buildSummary_project (p : String) (rows : List TaskRow) :
    (buildSummary p rows).project = p :=
  buildFold_project p rows _

theorem buildSummary_total (p : String) (rows : List TaskRow) :
    (buildSummary p rows).total = rows.countP (fun t => decide (t.project = some p)) := by
  unfold buildSummary
  rw [buildFold_total]
  simp

theorem buildSummary_next (p : String) (rows : List TaskRow) :
    (buildSummary p rows).next_actions =
      rows.countP (fun t => decide (t.project = some p ∧ t.status = .next)) := by
  unfold buildSummary
  rw [buildFold_next]
  simp

theorem buildSummary_waiting (p : String) (rows : List TaskRow) :
    (buildSummary p rows).waiting =
      rows.countP (fun t => decide (t.project = some p ∧ t.status = .waiting)) := by
  unfold buildSummary
  rw [buildFold_waiting]
  simp

theorem buildSummary_someday (p : String) (rows : List TaskRow) :
    (buildSummary p rows).someday =
      rows.countP (fun t => decide (t.project = some p ∧ t.status = .someday)) := by
  unfold buildSummary
  rw [buildFold_someday]
  simp

theorem fetch_projects_map_project (f : Option TaskStatus) (tasks : List TaskRow) :
    (fetch_projects f tasks).map (fun s => s.project) =
      sortDedup ((tasks.filter (matchesProjects f)).filterMap (fun t => t.project)) := by
  unfold fetch_projects
  rw [List.map_map]
  have h : ∀ p ∈ sortDedup ((tasks.filter (matchesProjects f)).filterMap (fun t => t.project)),
      ((fun s => s.project) ∘ fun p => buildSummary p (tasks.filter (matchesProjects f))) p
        = id p := by
    intro p _
    simp [buildSummary_project]
  rw [List.map_congr_left h, List.map_id]

/-! ## C9 -/

/-- C9: project aggregation counts exactly the non-empty-project tasks
allowed by the status filter; each distinct project yields one summary
whose `total` counts all its matching tasks and whose
`next_actions`/`waiting`/`someday` count the matching tasks with status
Next/Waiting/Someday; the rows come out strictly sorted by project name
ascending. -/
theorem c9_fetch_projects_spec : ∀ (f : Option TaskStatus) (tasks : List TaskRow),
    (fetch_projects f tasks).Pairwise (fun a b => strLt a.project b.project = true) ∧
    ((fetch_projects f tasks).map (fun s => s.project)).Nodup ∧
    (∀ p : String, p ∈ (fetch_projects f tasks).map (fun s => s.project) ↔
       ∃ t ∈ tasks, matchesProjects f t = true ∧ t.project = some p) ∧
    (∀ s ∈ fetch_projects f tasks,
       s.total = (tasks.filter (matchesProjects f)).countP
         (fun t => decide (t.project = some s.project)) ∧
       s.next_actions = (tasks.filter (matchesProjects f)).countP
         (fun t => decide (t.project = some s.project ∧ t.status = .next)) ∧
       s.waiting = (tasks.filter (matchesProjects f)).countP
         (fun t => decide (t.project = some s.project ∧ t.status = .waiting)) ∧
       s.someday = (tasks.filter (matchesProjects f)).countP
         (fun t => decide (t.project = some s.project ∧ t.status = .someday))) := by
  intro f tasks
  refine ⟨?_, ?_, ?_, ?_⟩
  · unfold fetch_projects
    rw [List.pairwise_map]
    apply (sortDedup_strict _).imp
    intro a b hab
    rw [buildSummary_project, buildSummary_project]
    exact strLt_of_le_ne hab.1 hab.2
  · rw [fetch_projects_map_project]
    exact sortDedup_nodup _
  · intro p
    rw [fetch_projects_map_project, mem_sortDedup, List.mem_filterMap]
    constructor
    · rintro ⟨t, ht, hp⟩
      have := List.mem_filter.mp ht
      exact ⟨t, this.1, this.2, hp⟩
    · rintro ⟨t, ht, hm, hp⟩
      exact ⟨t, List.mem_filter.mpr ⟨ht, hm⟩, hp⟩
  · intro s hs
    unfold fetch_projects at hs
    rcases List.mem_map.mp hs with ⟨p, _, rfl⟩
    rw [buildSummary_project, buildSummary_total, buildSummary_next,
      buildSummary_waiting, buildSummary_someday]
    exact ⟨rfl, rfl, rfl, rfl⟩

def acmeTasks : List TaskRow :=
  [{ id := "1", title := "a", status := .next, project := some "Acme" },
   { id := "2", title := "b", status := .waiting, project := some "Acme" },
   { id := "3", title := "c", status := .someday, project := some "Acme" }]

def acmeSummary : ProjectSummary :=
  { project := "Acme", total := 3, next_actions := 1, waiting := 1, someday := 1 }

/-- Witness for C9: the spec's three-task Acme example. -/
theorem c9_fetch_projects_spec_witness :
    (fetch_projects none acmeTasks).Pairwise (fun a b => strLt a.project b.project = true) ∧
    ("Acme" ∈ (fetch_projects none acmeTasks).map (fun s => s.project) ↔
       ∃ t ∈ acmeTasks, matchesProjects none t = true ∧ t.project = some "Acme") ∧
    acmeSummary ∈ fetch_projects none acmeTasks ∧
    acmeSummary.total = (acmeTasks.filter (matchesProjects none)).countP
      (fun t => decide (t.project = some acmeSummary.project)) :=
  ⟨(c9_fetch_projects_spec none acmeTasks).1,
   (c9_fetch_projects_spec none acmeTasks).2.2.1 "Acme",
   by decide,
   ((c9_fetch_projects_spec none acmeTasks).2.2.2 acmeSummary (by decide)).1⟩

/-! ## Lowercase invariants of the inline parse (C4 helpers) -/

theorem char_toNat_ofNat {n : Nat} (h : n < 55296) : (Char.ofNat n).toNat = n := by
  unfold Char.ofNat
  rw [dif_pos (Or.inl h)]
  simp [Char.ofNatAux, Char.toNat, UInt32.toNat]

theorem toAsciiLowerChar_idem (c : Char) :
    toAsciiLowerChar (toAsciiLowerChar c) = toAsciiLowerChar c := by
  unfold toAsciiLowerChar
  by_cases h : (65 ≤ c.toNat && c.toNat ≤ 90) = true
  · rw [if_pos h]
    simp only [Bool.and_eq_true, decide_eq_true_eq] at h
    have hn : (Char.ofNat (c.toNat + 32)).toNat = c.toNat + 32 :=
      char_toNat_ofNat (by omega)
    have hcond : (65 ≤ (Char.ofNat (c.toNat + 32)).toNat &&
        (Char.ofNat (c.toNat + 32)).toNat ≤ 90) = false := by
      rw [hn]
      simp only [Bool.and_eq_false_iff, decide_eq_false_iff_not]
      omega
    rw [if_neg (by simp [hcond])]
  · rw [if_neg h, if_neg h]

theorem toList_mk (l : List Char) : (String.mk l).toList = l := rfl

theorem toAsciiLower_idem (s : String) : toAsciiLower (toAsciiLower s) = toAsciiLower s := by
  unfold toAsciiLower
  rw [toList_mk, List.map_map]
  congr 1
  apply List.map_congr_left
  intro c _
  exact toAsciiLowerChar_idem c

theorem normalize_label_lower (v : String) :
    toAsciiLower (normalize_label v) = normalize_label v := by
  unfold normalize_label
  exact toAsciiLower_idem _

theorem mem_normalize_labels {x : String} {vs : List String} (h : x ∈ normalize_labels vs) :
    toAsciiLower x = x := by
  unfold normalize_labels at h
  rcases List.mem_filter.mp h with ⟨hm, _⟩
  rcases List.mem_map.mp hm with ⟨v, _, rfl⟩
  exact normalize_label_lower v

theorem mem_mergeGo {x : String} : ∀ (l seen acc : List String),
    x ∈ mergeGo seen acc l → x ∈ acc ∨ x ∈ l := by
  intro l
  induction l with
  | nil => intro seen acc h; exact Or.inl h
  | cons v rest ih =>
    intro seen acc h
    unfold mergeGo at h
    split at h
    · rcases ih _ _ h with h2 | h2
      · exact Or.inl h2
      · exact Or.inr (List.mem_cons_of_mem _ h2)
    · rcases ih _ _ h with h2 | h2
      · rcases List.mem_append.mp h2 with h3 | h3
        · exact Or.inl h3
        · simp at h3
          subst h3
          exact Or.inr (List.mem_cons_self _ _)
      · exact Or.inr (List.mem_cons_of_mem _ h2)

theorem mem_merge_lists {x : String} {a b : List String} (h : x ∈ merge_lists a b) :
    x ∈ a ∨ x ∈ b :=
  mem_mergeGo b a a h

/-- Full case inversion of one successful `inlineStepCore` call: exactly
one classification branch fired, and the output state is the
corresponding record update. -/
theorem inlineStepCore_ok_inv {c : LocalClock} {st st2 : InlineTokens × Option Int}
    {p piece : String} {trailing : Option String}
    (h : inlineStepCore c st p piece trailing = .ok st2) :
    ((strStartsWith piece "@" && decide (strLength piece > 1)) = true ∧
      st2 = ({ st.1 with contexts := st.1.contexts ++ [normalize_label (String.mk (piece.toList.dropWhile (fun c => c = '@')))], title_words := pushTrailingOpt st.1.title_words trailing }, st.2)) ∨
    ((strStartsWith piece "+" && decide (strLength piece > 1)) = true ∧
      st2 = ({ st.1 with project := some (clean_title (String.mk (piece.toList.dropWhile (fun c => c = '+')))), title_words := pushTrailingOpt st.1.title_words trailing }, st.2)) ∨
    ((strStartsWith piece "#" && decide (strLength piece > 1)) = true ∧
      st2 = ({ st.1 with tags := st.1.tags ++ [normalize_label (String.mk (piece.toList.dropWhile (fun c => c = '#')))], title_words := pushTrailingOpt st.1.title_words trailing }, st.2)) ∨
    (strStartsWith piece "due:" = true ∧ (∃ t, parse_date_spec c (strDrop piece 4) = .ok t ∧
      st2 = ({ st.1 with due_at := some t, title_words := pushTrailingOpt st.1.title_words trailing }, st.2))) ∨
    (strStartsWith piece "defer:" = true ∧ (∃ t, parse_date_spec c (strDrop piece 6) = .ok t ∧
      st2 = ({ st.1 with defer_until := some t, title_words := pushTrailingOpt st.1.title_words trailing }, st.2))) ∨
    (strStartsWith piece "t:" = true ∧ (∃ n, parse_duration_minutes (strDrop piece 2) = .ok n ∧
      st2 = ({ st.1 with time_estimate := some n, title_words := pushTrailingOpt st.1.title_words trailing }, st.2))) ∨
    (strStartsWith piece "e:" = true ∧ (∃ en, parse_energy (strDrop piece 2) = .ok en ∧
      st2 = ({ st.1 with energy := some en, title_words := pushTrailingOpt st.1.title_words trailing }, st.2))) ∨
    (strStartsWith piece "p:" = true ∧ (∃ n, parse_u8 (strDrop piece 2) = some n ∧
      st2 = ({ st.1 with priority := some (min n 3), title_words := pushTrailingOpt st.1.title_words trailing }, st.2))) ∨
    (strStartsWith piece "wait:" = true ∧
      st2 = ({ st.1 with
        waiting_on := if strDrop piece 5 = "" then st.1.waiting_on
          else some (clean_title (strDrop piece 5)), title_words := pushTrailingOpt st.1.title_words trailing }, st.2)) ∨
    (strStartsWith piece "since:" = true ∧ (∃ t, parse_date_spec c (strDrop piece 6) = .ok t ∧
      st2 = ({ st.1 with title_words := pushTrailingOpt st.1.title_words trailing }, some t))) ∨
    (¬(strStartsWith piece "@" && decide (strLength piece > 1)) = true ∧ ¬(strStartsWith piece "+" && decide (strLength piece > 1)) = true ∧ ¬(strStartsWith piece "#" && decide (strLength piece > 1)) = true ∧
     ¬strStartsWith piece "due:" = true ∧ ¬strStartsWith piece "defer:" = true ∧ ¬strStartsWith piece "t:" = true ∧
     ¬strStartsWith piece "e:" = true ∧ ¬strStartsWith piece "p:" = true ∧ ¬strStartsWith piece "wait:" = true ∧
     ¬strStartsWith piece "since:" = true ∧
      st2 = ({ st.1 with title_words := st.1.title_words ++ [p] }, st.2)) := by
  unfold inlineStepCore at h
  by_cases h1 : (strStartsWith piece "@" && decide (strLength piece > 1)) = true
  · rw [if_pos h1] at h
    injection h with h
    exact Or.inl ⟨h1, h.symm⟩
  · rw [if_neg h1] at h
    by_cases h2 : (strStartsWith piece "+" && decide (strLength piece > 1)) = true
    · rw [if_pos h2] at h
      injection h with h
      exact Or.inr (Or.inl ⟨h2, h.symm⟩)
    · rw [if_neg h2] at h
      by_cases h3 : (strStartsWith piece "#" && decide (strLength piece > 1)) = true
      · rw [if_pos h3] at h
        injection h with h
        exact Or.inr (Or.inr (Or.inl ⟨h3, h.symm⟩))
      · rw [if_neg h3] at h
        by_cases h4 : strStartsWith piece "due:" = true
        · rw [if_pos h4] at h
          cases hd : parse_date_spec c (strDrop piece 4) with
          | error e =>
            rw [hd] at h
            exact Except.noConfusion h
          | ok t =>
            rw [hd] at h
            injection h with h
            exact Or.inr (Or.inr (Or.inr (Or.inl ⟨h4, t, rfl, h.symm⟩)))
        · rw [if_neg h4] at h
          by_cases h5 : strStartsWith piece "defer:" = true
          · rw [if_pos h5] at h
            cases hd : parse_date_spec c (strDrop piece 6) with
            | error e =>
              rw [hd] at h
              exact Except.noConfusion h
            | ok t =>
              rw [hd] at h
              injection h with h
              exact Or.inr (Or.inr (Or.inr (Or.inr (Or.inl ⟨h5, t, rfl, h.symm⟩))))
          · rw [if_neg h5] at h
            by_cases h6 : strStartsWith piece "t:" = true
            · rw [if_pos h6] at h
              cases hd : parse_duration_minutes (strDrop piece 2) with
              | error e =>
                rw [hd] at h
                exact Except.noConfusion h
              | ok n =>
                rw [hd] at h
                injection h with h
                exact Or.inr (Or.inr (Or.inr (Or.inr (Or.inr (Or.inl ⟨h6, n, rfl, h.symm⟩)))))
            · rw [if_neg h6] at h
              by_cases h7 : strStartsWith piece "e:" = true
              · rw [if_pos h7] at h
                cases hd : parse_energy (strDrop piece 2) with
                | error e =>
                  rw [hd] at h
                  exact Except.noConfusion h
                | ok en =>
                  rw [hd] at h
                  injection h with h
                  exact Or.inr (Or.inr (Or.inr (Or.inr (Or.inr (Or.inr (Or.inl
                    ⟨h7, en, rfl, h.symm⟩))))))
              · rw [if_neg h7] at h
                by_cases h8 : strStartsWith piece "p:" = true
                · rw [if_pos h8] at h
                  cases hd : parse_u8 (strDrop piece 2) with
                  | none =>
                    rw [hd] at h
                    exact Except.noConfusion h
                  | some n =>
                    rw [hd] at h
                    injection h with h
                    exact Or.inr (Or.inr (Or.inr (Or.inr (Or.inr (Or.inr (Or.inr (Or.inl
                      ⟨h8, n, rfl, h.symm⟩)))))))
                · rw [if_neg h8] at h
                  by_cases h9 : strStartsWith piece "wait:" = true
                  · rw [if_pos h9] at h
                    injection h with h
                    exact Or.inr (Or.inr (Or.inr (Or.inr (Or.inr (Or.inr (Or.inr (Or.inr
                      (Or.inl ⟨h9, h.symm⟩))))))))
                  · rw [if_neg h9] at h
                    by_cases h10 : strStartsWith piece "since:" = true
                    · rw [if_pos h10] at h
                      cases hd : parse_date_spec c (strDrop piece 6) with
                      | error e =>
                        rw [hd] at h
                        exact Except.noConfusion h
                      | ok t =>
                        rw [hd] at h
                        injection h with h
                        exact Or.inr (Or.inr (Or.inr (Or.inr (Or.inr (Or.inr (Or.inr (Or.inr
                          (Or.inr (Or.inl ⟨h10, t, rfl, h.symm⟩)))))))))
                    · rw [if_neg h10] at h
                      injection h with h
                      exact Or.inr (Or.inr (Or.inr (Or.inr (Or.inr (Or.inr (Or.inr (Or.inr
                        (Or.inr (Or.inr ⟨h1, h2, h3, h4, h5, h6, h7, h8, h9, h10, h.symm⟩)))))))))

/-- Every element the inline loop ever appends to `contexts` or `tags`
is a `normalize_label` image, hence ASCII-lowercase. -/
theorem inlineStepCore_lower {c : LocalClock} {st st2 : InlineTokens × Option Int}
    {p piece : String} {trailing : Option String}
    (h : inlineStepCore c st p piece trailing = .ok st2)
    (hc : ∀ x ∈ st.1.contexts, toAsciiLower x = x)
    (ht : ∀ x ∈ st.1.tags, toAsciiLower x = x) :
    (∀ x ∈ st2.1.contexts, toAsciiLower x = x) ∧
    (∀ x ∈ st2.1.tags, toAsciiLower x = x) := by
  rcases inlineStepCore_ok_inv h with
    ⟨_, rfl⟩ | ⟨_, rfl⟩ | ⟨_, rfl⟩ | ⟨_, t, _, rfl⟩ | ⟨_, t, _, rfl⟩ | ⟨_, n, _, rfl⟩ |
    ⟨_, en, _, rfl⟩ | ⟨_, n, _, rfl⟩ | ⟨_, rfl⟩ | ⟨_, t, _, rfl⟩ |
    ⟨_, _, _, _, _, _, _, _, _, _, rfl⟩
  all_goals
    refine ⟨fun x hx => ?_, fun x hx => ?_⟩ <;>
      first
      | exact hc x hx
      | exact ht x hx
      | (rcases List.mem_append.mp hx with h2 | h2
         · first
           | exact hc x h2
           | exact ht x h2
         · rw [List.mem_singleton] at h2
           subst h2
           exact normalize_label_lower _)

theorem inlineLoop_lower {c : LocalClock} : ∀ (toks : List String)
    (st st2 : InlineTokens × Option Int), inlineLoop c st toks = .ok st2 →
    (∀ x ∈ st.1.contexts, toAsciiLower x = x) →
    (∀ x ∈ st.1.tags, toAsciiLower x = x) →
    (∀ x ∈ st2.1.contexts, toAsciiLower x = x) ∧
    (∀ x ∈ st2.1.tags, toAsciiLower x = x) := by
  intro toks
  induction toks with
  | nil =>
    intro st st2 h hc ht
    unfold inlineLoop at h
    injection h with h
    subst h
    exact ⟨hc, ht⟩
  | cons p rest ih =>
    intro st st2 h hc ht
    unfold inlineLoop at h
    cases hs : inlineStep c st p with
    | error e =>
      rw [hs] at h
      exact Except.noConfusion h
    | ok stm =>
      rw [hs] at h
      have hm := inlineStepCore_lower hs hc ht
      exact ih stm st2 h hm.1 hm.2

/-- All contexts and tags produced by `parse_inline_tokens` are
ASCII-lowercase. -/
theorem parse_inline_tokens_lower {c : LocalClock} {text : String} {toks : InlineTokens}
    (h : parse_inline_tokens c text = .ok toks) :
    (∀ x ∈ toks.contexts, toAsciiLower x = x) ∧
    (∀ x ∈ toks.tags, toAsciiLower x = x) := by
  unfold parse_inline_tokens at h
  cases hl : inlineLoop c ({}, none) (splitWs text) with
  | error e =>
    rw [hl] at h
    exact Except.noConfusion h
  | ok st =>
    rw [hl] at h
    have hm := inlineLoop_lower (splitWs text) _ _ hl (by simp) (by simp)
    injection h with h
    subst h
    split
    · exact hm
    · exact hm

/-! ## Inversion of `parse_capture` -/

/-- The fully resolved record produced by a successful `parse_capture`,
given its intermediate resolution results. -/
def captureResult (input : CaptureInput) (inline : InlineTokens)
    (energy : Option EnergyLevel) (due_at defer_until waiting_since : Option Int)
    (title : String) : ParsedTask :=
  { task := { title := title
              notes := input.notes
              status := match input.status with
                | some s => s
                | none => TaskStatus.default_for_waiting
                    (optionOr (input.waiting_on.map strTrim) inline.waiting_on).isSome
              project := optionOr (input.project.map strTrim) inline.project
              areas := sortDedup (normalize_labels input.areas)
              contexts := sortDedup (merge_lists inline.contexts
                (normalize_labels input.contexts))
              tags := sortDedup (merge_lists inline.tags (normalize_labels input.tags))
              priority := match input.priority with
                | some p => min p 3
                | none => inline.priority.getD 0
              energy := energy
              time_estimate := optionOr input.time_estimate inline.time_estimate
              due_at := due_at
              defer_until := defer_until
              repeat_ := none
              waiting_on := optionOr (input.waiting_on.map strTrim) inline.waiting_on
              waiting_since := waiting_since }
    title := title
    status := match input.status with
      | some s => s
      | none => TaskStatus.default_for_waiting
          (optionOr (input.waiting_on.map strTrim) inline.waiting_on).isSome }

/-- Inversion of a successful `parse_capture`: all intermediate
resolutions succeeded, the title is the word-join with raw-text
fallback, and the result is exactly `captureResult`. -/
theorem parse_capture_ok_inv {c : LocalClock} {input : CaptureInput} {r : ParsedTask}
    (h : parse_capture c input = .ok r) :
    ∃ inline energy due_at defer_until waiting_since,
      parse_inline_tokens c (String.intercalate " " input.text) = .ok inline ∧
      resolveEnergy input.energy inline.energy = .ok energy ∧
      resolveDate c input.due_at inline.due_at = .ok due_at ∧
      resolveDate c input.defer_until inline.defer_until = .ok defer_until ∧
      resolveDate c input.waiting_since inline.waiting_since = .ok waiting_since ∧
      (let title0 := strTrim (String.intercalate " " inline.title_words)
       let title := if title0 = "" then strTrim (String.intercalate " " input.text) else title0
       title ≠ "" ∧
       r = captureResult input inline energy due_at defer_until waiting_since title) := by
  unfold parse_capture at h
  dsimp only at h
  cases hi : parse_inline_tokens c (String.intercalate " " input.text) with
  | error e =>
    rw [hi] at h
    exact Except.noConfusion h
  | ok inline =>
    rw [hi] at h
    dsimp only at h
    cases he : resolveEnergy input.energy inline.energy with
    | error e =>
      rw [he] at h
      exact Except.noConfusion h
    | ok energy =>
      rw [he] at h
      dsimp only at h
      cases hd1 : resolveDate c input.due_at inline.due_at with
      | error e =>
        rw [hd1] at h
        exact Except.noConfusion h
      | ok due_at =>
        rw [hd1] at h
        dsimp only at h
        cases hd2 : resolveDate c input.defer_until inline.defer_until with
        | error e =>
          rw [hd2] at h
          exact Except.noConfusion h
        | ok defer_until =>
          rw [hd2] at h
          dsimp only at h
          cases hd3 : resolveDate c input.waiting_since inline.waiting_since with
          | error e =>
            rw [hd3] at h
            exact Except.noConfusion h
          | ok waiting_since =>
            rw [hd3] at h
            dsimp only at h
            refine ⟨inline, energy, due_at, defer_until, waiting_since,
              rfl, he, hd1, hd2, hd3, ?_⟩
            dsimp only
            by_cases h0 : strTrim (String.intercalate " " inline.title_words) = ""
            · rw [if_pos h0] at h
              rw [if_pos h0]
              split at h
              · exact Except.noConfusion h
              · rename_i hne
                injection h with h
                exact ⟨hne, h.symm⟩
            · rw [if_neg h0] at h
              rw [if_neg h0] at h
              rw [if_neg h0]
              injection h with h
              exact ⟨h0, h.symm⟩

/-! ## C4 -/

theorem nlGo_spec : ∀ (l seen : List String),
    (∀ x ∈ nlGo seen l, toAsciiLower x ∉ seen) ∧
    (nlGo seen l).Pairwise (fun a b => toAsciiLower a ≠ toAsciiLower b) := by
  intro l
  induction l with
  | nil =>
    intro seen
    constructor
    · intro x hx
      simp [nlGo] at hx
    · simp [nlGo]
  | cons token rest ih =>
    intro seen
    unfold nlGo
    split
    · exact ih seen
    · split
      · exact ih seen
      · rename_i hemp hcont
        constructor
        · intro x hx
          rcases List.mem_cons.mp hx with rfl | hx2
          · intro hmem
            exact hcont (List.elem_iff.mpr hmem)
          · intro hmem
            exact (ih _).1 x hx2 (List.mem_cons_of_mem _ hmem)
        · apply List.pairwise_cons.mpr
          refine ⟨?_, (ih _).2⟩
          intro y hy heq
          exact (ih _).1 y hy (by rw [← heq]; exact List.mem_cons_self _ _)

theorem normalize_list_pairwise (l : List String) :
    (normalize_list l).Pairwise (fun a b => toAsciiLower a ≠ toAsciiLower b) :=
  (nlGo_spec l []).2

theorem normalize_list_nodup (l : List String) : (normalize_list l).Nodup :=
  (normalize_list_pairwise l).imp (fun h heq => h (congrArg toAsciiLower heq))

/-- C4 (amended): tasks produced by `parse_capture` carry deduplicated,
all-ASCII-lowercase contexts, tags and areas; the `update_contexts` /
`update_tags` services deduplicate case-insensitively (no two stored
entries share a lowercased key) but keep the first occurrence's original
casing rather than lowercasing it. -/
theorem c4_case_normalization :
    (∀ (c : LocalClock) (input : CaptureInput) (r : ParsedTask),
      parse_capture c input = .ok r →
      r.task.contexts.Nodup ∧ r.task.tags.Nodup ∧ r.task.areas.Nodup ∧
      (∀ x ∈ r.task.contexts, toAsciiLower x = x) ∧
      (∀ x ∈ r.task.tags, toAsciiLower x = x) ∧
      (∀ x ∈ r.task.areas, toAsciiLower x = x)) ∧
    (∀ (now : Int) (t : TaskRow) (l : List String),
      (update_contexts now t l).contexts.Pairwise
        (fun a b => toAsciiLower a ≠ toAsciiLower b) ∧
      (update_contexts now t l).contexts.Nodup) ∧
    (∀ (now : Int) (t : TaskRow) (l : List String),
      (update_tags now t l).tags.Pairwise (fun a b => toAsciiLower a ≠ toAsciiLower b) ∧
      (update_tags now t l).tags.Nodup) := by
  refine ⟨?_, ?_, ?_⟩
  · intro c input r h
    obtain ⟨inline, energy, d1, d2, d3, hi, _, _, _, _, hrest⟩ := parse_capture_ok_inv h
    obtain ⟨hne, hr⟩ := hrest
    subst hr
    have hlow := parse_inline_tokens_lower hi
    refine ⟨sortDedup_nodup _, sortDedup_nodup _, sortDedup_nodup _, ?_, ?_, ?_⟩
    · intro x hx
      have hx2 := (mem_sortDedup _).mp hx
      rcases mem_merge_lists hx2 with h2 | h2
      · exact hlow.1 x h2
      · exact mem_normalize_labels h2
    · intro x hx
      have hx2 := (mem_sortDedup _).mp hx
      rcases mem_merge_lists hx2 with h2 | h2
      · exact hlow.2 x h2
      · exact mem_normalize_labels h2
    · intro x hx
      exact mem_normalize_labels ((mem_sortDedup _).mp hx)
  · intro now t l
    exact ⟨normalize_list_pairwise l, normalize_list_nodup l⟩
  · intro now t l
    exact ⟨normalize_list_pairwise l, normalize_list_nodup l⟩

/-- Witness for C4 at concrete inputs. -/
theorem c4_case_normalization_witness :
    (∀ r, parse_capture ⟨0, 0, 0⟩ { text := ["Buy", "milk", "@Store", "#Errand"] } = .ok r →
      r.task.contexts.Nodup ∧ (∀ x ∈ r.task.contexts, toAsciiLower x = x)) ∧
    (update_contexts 5 repeatSampleTask ["Office", "office", " "]).contexts.Nodup :=
  ⟨fun r h =>
    ⟨(c4_case_normalization.1 ⟨0, 0, 0⟩ _ r h).1,
     (c4_case_normalization.1 ⟨0, 0, 0⟩ _ r h).2.2.2.1⟩,
   (c4_case_normalization.2.1 5 repeatSampleTask ["Office", "office", " "]).2⟩

/-- Counterexample to C4 as stated: a task updated through
`update_contexts` with input `["Office"]` stores the context `"Office"`
verbatim — deduplicated case-insensitively but not lowercased. -/
theorem c4_not_lowercased_counterexample :
    (update_contexts 5 repeatSampleTask ["Office"]).contexts = ["Office"] ∧
    toAsciiLower "Office" ≠ "Office" := by
  refine ⟨rfl, by decide⟩

/-! ## C6 -/

/-- C6 (amended): with an explicit status the capture uses it verbatim;
otherwise the status is Waiting exactly when a `waiting_on` value
resolved at all (`Option::is_some`) — the structured override is trimmed
but not checked for emptiness, so a whitespace-only structured
`waiting_on` still yields Waiting — and Inbox in every other case. -/
theorem c6_status_resolution : ∀ (c : LocalClock) (input : CaptureInput) (r : ParsedTask),
    parse_capture c input = .ok r →
    r.status = (match input.status with
      | some s => s
      | none => if r.task.waiting_on.isSome then TaskStatus.waiting else TaskStatus.inbox) ∧
    r.task.status = r.status := by
  intro c input r h
  obtain ⟨inline, energy, d1, d2, d3, hi, _, _, _, _, hrest⟩ := parse_capture_ok_inv h
  obtain ⟨hne, hr⟩ := hrest
  subst hr
  constructor
  · dsimp only [captureResult]
    cases hst : input.status with
    | some s => rfl
    | none => rfl
  · rfl

def waitInput : CaptureInput := { text := ["Follow", "up", "wait:Alex"] }

def waitParsed : ParsedTask :=
  { task := { title := "Follow up", status := .waiting, waiting_on := some "Alex" },
    title := "Follow up", status := .waiting }

example : parse_capture ⟨0, 0, 0⟩ waitInput = .ok waitParsed := by rfl

/-- Witness for C6: the spec's `"Follow up wait:Alex"` example resolves
to status Waiting. -/
theorem c6_status_resolution_witness :
    parse_capture ⟨0, 0, 0⟩ waitInput = .ok waitParsed ∧
    waitParsed.status = TaskStatus.waiting :=
  ⟨by rfl, (c6_status_resolution ⟨0, 0, 0⟩ waitInput waitParsed (by rfl)).1⟩

def emptyWaitInput : CaptureInput := { text := ["x"], waiting_on := some " " }

/-- Counterexample to C6 as stated: a structured `waiting_on` of `" "`
trims to the empty string — not a non-empty value — yet the resolved
status is Waiting, where the claim requires Inbox. -/
theorem c6_empty_waiting_on_counterexample :
    (parse_capture ⟨0, 0, 0⟩ emptyWaitInput).toOption.map
      (fun r => (r.status, r.task.waiting_on)) = some (.waiting, some "") ∧
    TaskStatus.waiting ≠ TaskStatus.inbox := by
  refine ⟨by rfl, by decide⟩

/-! ## C8 helper lemmas -/

theorem mk_eq_empty {l : List Char} (h : String.mk l = "") : l = [] := by
  have := congrArg String.toList h
  rwa [toList_mk] at this

theorem strTrim_empty_all_ws {s : String} (h : strTrim s = "") :
    ∀ ch ∈ s.toList, ch.isWhitespace = true := by
  unfold strTrim at h
  have h2 := mk_eq_empty h
  rw [List.reverse_eq_nil_iff] at h2
  rw [List.dropWhile_eq_nil_iff] at h2
  have h3 : ∀ ch ∈ s.toList.dropWhile Char.isWhitespace, ch.isWhitespace = true := by
    intro ch hch
    exact h2 ch (by rwa [List.mem_reverse])
  intro ch hch
  rw [← List.takeWhile_append_dropWhile (p := Char.isWhitespace) (l := s.toList)] at hch
  rcases List.mem_append.mp hch with h4 | h4
  · exact List.mem_takeWhile_imp h4
  · exact h3 ch h4

theorem splitWsChars_all_ws : ∀ cs : List Char,
    (∀ ch ∈ cs, ch.isWhitespace = true) → splitWsChars [] cs = [] := by
  intro cs
  induction cs with
  | nil => intro _; rfl
  | cons c rest ih =>
    intro h
    unfold splitWsChars
    rw [if_pos (h c (List.mem_cons_self _ _))]
    rw [if_pos rfl]
    rw [List.nil_append]
    exact ih (fun ch hch => h ch (List.mem_cons_of_mem _ hch))

theorem splitWs_of_trim_empty {s : String} (h : strTrim s = "") : splitWs s = [] :=
  splitWsChars_all_ws s.toList (strTrim_empty_all_ws h)

/-! ## C8 -/

/-- C8: the resolved title is the space-joined accumulated title-word
sequence, trimmed; when that is empty it falls back to the trimmed raw
joined text; a successful parse never returns an empty title, and when
the raw text itself trims to empty (and the structured overrides do not
fail first) the parse fails with the empty-title validation error, so
nothing is persisted. -/
theorem c8_title_resolution :
    (∀ (c : LocalClock) (input : CaptureInput) (toks : InlineTokens) (r : ParsedTask),
      parse_inline_tokens c (String.intercalate " " input.text) = .ok toks →
      parse_capture c input = .ok r →
      r.title = (if strTrim (String.intercalate " " toks.title_words) = ""
        then strTrim (String.intercalate " " input.text)
        else strTrim (String.intercalate " " toks.title_words)) ∧
      r.title ≠ "" ∧ r.task.title = r.title) ∧
    (∀ (c : LocalClock) (input : CaptureInput),
      strTrim (String.intercalate " " input.text) = "" →
      input.energy = none → input.due_at = none → input.defer_until = none →
      input.waiting_since = none →
      parse_capture c input = .error "Task title cannot be empty after parsing tokens") := by
  constructor
  · intro c input toks r hi h
    obtain ⟨inline, energy, d1, d2, d3, hi2, _, _, _, _, hrest⟩ := parse_capture_ok_inv h
    rw [hi] at hi2
    injection hi2 with hi2
    subst hi2
    obtain ⟨hne, hr⟩ := hrest
    subst hr
    refine ⟨?_, ?_, rfl⟩
    · by_cases h0 : strTrim (String.intercalate " " toks.title_words) = ""
      · rw [if_pos h0]
        rfl
      · rw [if_neg h0]
        rfl
    · exact hne
  · intro c input hraw he hd hdf hws
    have hi : parse_inline_tokens c (String.intercalate " " input.text) = .ok {} := by
      unfold parse_inline_tokens
      rw [splitWs_of_trim_empty hraw]
      rfl
    unfold parse_capture
    dsimp only
    rw [hi]
    dsimp only
    rw [he, hd, hdf, hws]
    dsimp only [resolveEnergy, resolveDate]
    rw [show strTrim (String.intercalate " " (({} : InlineTokens)).title_words) = "" from rfl]
    rw [if_pos rfl]
    rw [hraw]
    rw [if_pos rfl]

def fallbackInput : CaptureInput := { text := ["@home", "#x"] }

def fallbackToks : InlineTokens := { contexts := ["home"], tags := ["x"] }

def fallbackParsed : ParsedTask :=
  { task := { title := "@home #x", status := .inbox, contexts := ["home"], tags := ["x"] },
    title := "@home #x", status := .inbox }

example : parse_inline_tokens ⟨0, 0, 0⟩ (String.intercalate " " fallbackInput.text) =
    .ok fallbackToks := by rfl

example : parse_capture ⟨0, 0, 0⟩ fallbackInput = .ok fallbackParsed := by rfl

/-- Witness for C8: the all-directive capture `"@home #x"` falls back to
the raw text as title, and the empty capture fails with the empty-title
error. -/
theorem c8_title_resolution_witness :
    (fallbackParsed.title = (if strTrim (String.intercalate " " fallbackToks.title_words) = ""
      then strTrim (String.intercalate " " fallbackInput.text)
      else strTrim (String.intercalate " " fallbackToks.title_words)) ∧
     fallbackParsed.title ≠ "") ∧
    parse_capture ⟨0, 0, 0⟩ { text := [] } =
      .error "Task title cannot be empty after parsing tokens" :=
  ⟨⟨(c8_title_resolution.1 ⟨0, 0, 0⟩ fallbackInput fallbackToks fallbackParsed
      (by rfl) (by rfl)).1,
    (c8_title_resolution.1 ⟨0, 0, 0⟩ fallbackInput fallbackToks fallbackParsed
      (by rfl) (by rfl)).2.1⟩,
   c8_title_resolution.2 ⟨0, 0, 0⟩ { text := [] } (by rfl) rfl rfl rfl rfl⟩

/-! ## C3 helper lemmas: stems of title words -/

/-- A token stem recognized as a directive by the classification chain
of `parse_inline_tokens` (exactly the guards of `inlineStepCore`). -/
def isDirectiveStem (piece : String) : Bool :=
  (strStartsWith piece "@" && decide (strLength piece > 1)) ||
  (strStartsWith piece "+" && decide (strLength piece > 1)) ||
  (strStartsWith piece "#" && decide (strLength piece > 1)) ||
  strStartsWith piece "due:" || strStartsWith piece "defer:" ||
  strStartsWith piece "t:" || strStartsWith piece "e:" ||
  strStartsWith piece "p:" || strStartsWith piece "wait:" || strStartsWith piece "since:"

theorem takeWhile_append_sat {p : Char → Bool} : ∀ (a b : List Char),
    (∀ x ∈ a, p x = true) → (a ++ b).takeWhile p = a ++ b.takeWhile p := by
  intro a
  induction a with
  | nil => intro b _; rfl
  | cons x xs ih =>
    intro b h
    rw [List.cons_append, List.takeWhile_cons, if_pos (h x (List.mem_cons_self _ _)),
      ih b (fun y hy => h y (List.mem_cons_of_mem _ hy)), List.cons_append]

theorem dropWhile_append_sat {p : Char → Bool} : ∀ (a b : List Char),
    (∀ x ∈ a, p x = true) → (a ++ b).dropWhile p = b.dropWhile p := by
  intro a
  induction a with
  | nil => intro b _; rfl
  | cons x xs ih =>
    intro b h
    rw [List.cons_append, List.dropWhile_cons, if_pos (h x (List.mem_cons_self _ _)),
      ih b (fun y hy => h y (List.mem_cons_of_mem _ hy))]

theorem dropWhile_eq_self_of_takeWhile_nil {p : Char → Bool} {l : List Char}
    (h : l.takeWhile p = []) : l.dropWhile p = l := by
  cases l with
  | nil => rfl
  | cons a t =>
    rw [List.takeWhile_cons] at h
    rw [List.dropWhile_cons]
    split at h
    · exact absurd h (by simp)
    · rename_i hp
      simp [hp]

/-- The stem is always the reverse-dropWhile form, whether or not any
punctuation was stripped. -/
theorem stem_eq (w : String) : (strip_trailing_punctuation w).1 =
    String.mk (w.toList.reverse.dropWhile isPunctChar).reverse := by
  unfold strip_trailing_punctuation
  split
  · rename_i h
    rw [dropWhile_eq_self_of_takeWhile_nil h, List.reverse_reverse, strMk_toList]
  · rfl

/-- The stripped trailing run is pure punctuation and non-empty. -/
theorem strip_snd_spec {s t : String} (h : (strip_trailing_punctuation s).2 = some t) :
    (∀ ch ∈ t.toList, isPunctChar ch = true) ∧ t.toList ≠ [] := by
  unfold strip_trailing_punctuation at h
  split at h
  · exact Option.noConfusion h
  · rename_i hne
    injection h with h
    subst h
    rw [toList_mk]
    constructor
    · intro ch hch
      rw [List.mem_reverse] at hch
      exact List.mem_takeWhile_imp hch
    · intro hc
      rw [List.reverse_eq_nil_iff] at hc
      exact hne hc

/-- Appending pure trailing punctuation does not change a token's stem. -/
theorem stem_append_punct {w t : String} (hp : ∀ ch ∈ t.toList, isPunctChar ch = true) :
    (strip_trailing_punctuation (w ++ t)).1 = (strip_trailing_punctuation w).1 := by
  rw [stem_eq, stem_eq]
  have hlist : (w ++ t).toList = w.toList ++ t.toList := rfl
  rw [hlist, List.reverse_append]
  rw [dropWhile_append_sat t.toList.reverse w.toList.reverse
    (fun x hx => hp x (List.mem_reverse.mp hx))]

/-- The stem of a pure-punctuation token is empty, hence no directive. -/
theorem stem_all_punct {t : String} (hp : ∀ ch ∈ t.toList, isPunctChar ch = true) :
    (strip_trailing_punctuation t).1 = "" := by
  rw [stem_eq]
  have : t.toList.reverse.dropWhile isPunctChar = [] := by
    rw [List.dropWhile_eq_nil_iff]
    intro x hx
    exact hp x (List.mem_reverse.mp hx)
  rw [this]
  rfl

theorem isDirectiveStem_empty : isDirectiveStem "" = false := by decide

/-- `push_trailing` preserves the no-directive-stem invariant of the
title words when the appended run is pure punctuation. -/
theorem push_trailing_stem_inv : ∀ (ws : List String) (t : String),
    (∀ w ∈ ws, isDirectiveStem (strip_trailing_punctuation w).1 = false) →
    (∀ ch ∈ t.toList, isPunctChar ch = true) →
    ∀ w ∈ push_trailing ws t, isDirectiveStem (strip_trailing_punctuation w).1 = false := by
  intro ws
  induction ws with
  | nil =>
    intro t _ hp w hw
    rw [push_trailing] at hw
    rw [List.mem_singleton] at hw
    subst hw
    rw [stem_all_punct hp]
    exact isDirectiveStem_empty
  | cons a rest ih =>
    intro t hws hp w hw
    cases rest with
    | nil =>
      rw [push_trailing, List.mem_singleton] at hw
      subst hw
      rw [stem_append_punct hp]
      exact hws a (List.mem_cons_self _ _)
    | cons b rest2 =>
      rw [show push_trailing (a :: b :: rest2) t = a :: push_trailing (b :: rest2) t
        from rfl] at hw
      rcases List.mem_cons.mp hw with rfl | hw2
      · exact hws w (List.mem_cons_self _ _)
      · exact ih t (fun y hy => hws y (List.mem_cons_of_mem _ hy)) hp w hw2

theorem pushTrailingOpt_stem_inv {ws : List String} {p : String}
    (hws : ∀ w ∈ ws, isDirectiveStem (strip_trailing_punctuation w).1 = false) :
    ∀ w ∈ pushTrailingOpt ws (strip_trailing_punctuation p).2,
      isDirectiveStem (strip_trailing_punctuation w).1 = false := by
  cases hx : (strip_trailing_punctuation p).2 with
  | none => exact hws
  | some t =>
    obtain ⟨hp, _⟩ := strip_snd_spec hx
    exact push_trailing_stem_inv ws t hws hp

/-- One classification step preserves the no-directive-stem invariant of
the accumulated title words. -/
theorem inlineStep_title_inv {c : LocalClock} {st st2 : InlineTokens × Option Int}
    {p : String} (h : inlineStep c st p = .ok st2)
    (hws : ∀ w ∈ st.1.title_words, isDirectiveStem (strip_trailing_punctuation w).1 = false) :
    ∀ w ∈ st2.1.title_words, isDirectiveStem (strip_trailing_punctuation w).1 = false := by
  unfold inlineStep at h
  rcases inlineStepCore_ok_inv h with
    ⟨_, rfl⟩ | ⟨_, rfl⟩ | ⟨_, rfl⟩ | ⟨_, t, _, rfl⟩ | ⟨_, t, _, rfl⟩ | ⟨_, n, _, rfl⟩ |
    ⟨_, en, _, rfl⟩ | ⟨_, n, _, rfl⟩ | ⟨_, rfl⟩ | ⟨_, t, _, rfl⟩ |
    ⟨g1, g2, g3, g4, g5, g6, g7, g8, g9, g10, rfl⟩
  all_goals intro w hw
  all_goals dsimp only at hw
  all_goals
    first
    | exact pushTrailingOpt_stem_inv hws w hw
    | (rcases List.mem_append.mp hw with h2 | h2
       · exact hws w h2
       · rw [List.mem_singleton] at h2
         subst h2
         simp only [Bool.not_eq_true] at g1 g2 g3 g4 g5 g6 g7 g8 g9 g10
         simp [isDirectiveStem, g1, g2, g3, g4, g5, g6, g7, g8, g9, g10])

theorem inlineLoop_title_inv {c : LocalClock} : ∀ (toks : List String)
    (st st2 : InlineTokens × Option Int), inlineLoop c st toks = .ok st2 →
    (∀ w ∈ st.1.title_words, isDirectiveStem (strip_trailing_punctuation w).1 = false) →
    ∀ w ∈ st2.1.title_words, isDirectiveStem (strip_trailing_punctuation w).1 = false := by
  intro toks
  induction toks with
  | nil =>
    intro st st2 h hws
    unfold inlineLoop at h
    injection h with h
    subst h
    exact hws
  | cons p rest ih =>
    intro st st2 h hws
    unfold inlineLoop at h
    cases hs : inlineStep c st p with
    | error e =>
      rw [hs] at h
      exact Except.noConfusion h
    | ok stm =>
      rw [hs] at h
      exact ih stm st2 h (inlineStep_title_inv hs hws)

/-- No accumulated title word of a successful inline parse has a
directive stem. -/
theorem parse_inline_tokens_title_inv {c : LocalClock} {text : String} {toks : InlineTokens}
    (h : parse_inline_tokens c text = .ok toks) :
    ∀ w ∈ toks.title_words, isDirectiveStem (strip_trailing_punctuation w).1 = false := by
  unfold parse_inline_tokens at h
  cases hl : inlineLoop c ({}, none) (splitWs text) with
  | error e =>
    rw [hl] at h
    exact Except.noConfusion h
  | ok st =>
    rw [hl] at h
    have hm := inlineLoop_title_inv (splitWs text) _ _ hl (by simp)
    injection h with h
    subst h
    split
    · exact hm
    · exact hm

/-! ## C3 -/

/-- C3 (amended): for every successful capture, no accumulated title
word has a trailing-punctuation-stripped stem that the tokenizer would
recognize as a directive; the resolved title is either the trimmed join
of those words or — when no plain word accumulated — the trimmed raw
text, and only that fallback can re-expose directive tokens. -/
theorem c3_title_directive_free : ∀ (c : LocalClock) (input : CaptureInput)
    (toks : InlineTokens) (r : ParsedTask),
    parse_inline_tokens c (String.intercalate " " input.text) = .ok toks →
    parse_capture c input = .ok r →
    (∀ w ∈ toks.title_words, isDirectiveStem (strip_trailing_punctuation w).1 = false) ∧
    (r.title = strTrim (String.intercalate " " toks.title_words) ∨
     r.title = strTrim (String.intercalate " " input.text)) := by
  intro c input toks r hi h
  refine ⟨parse_inline_tokens_title_inv hi, ?_⟩
  obtain ⟨inline, energy, d1, d2, d3, hi2, _, _, _, _, hrest⟩ := parse_capture_ok_inv h
  rw [hi] at hi2
  injection hi2 with hi2
  subst hi2
  obtain ⟨hne, hr⟩ := hrest
  subst hr
  by_cases h0 : strTrim (String.intercalate " " toks.title_words) = ""
  · right
    rw [if_pos h0]
    rfl
  · left
    rw [if_neg h0]
    rfl

/-- Witness for C3 at the concrete capture `"Call Bob, @home t:30"`. -/
theorem c3_title_directive_free_witness :
    (∀ w ∈ (InlineTokens.mk ["Call", "Bob,"] none ["home"] [] none none (some 30)
        none none none none).title_words,
      isDirectiveStem (strip_trailing_punctuation w).1 = false) ∧
    (ParsedTask.title
        { task := { title := "Call Bob,", status := .inbox, contexts := ["home"],
                    time_estimate := some 30 },
          title := "Call Bob,", status := .inbox } = "Call Bob," ) :=
  ⟨(c3_title_directive_free ⟨0, 0, 0⟩ { text := ["Call", "Bob,", "@home", "t:30"] }
      (InlineTokens.mk ["Call", "Bob,"] none ["home"] [] none none (some 30)
        none none none none)
      { task := { title := "Call Bob,", status := .inbox, contexts := ["home"],
                  time_estimate := some 30 },
        title := "Call Bob,", status := .inbox }
      (by rfl) (by rfl)).1,
   rfl⟩

/-- Counterexample to C3 as stated: the valid capture `"@home #x"` has
no plain title words, falls back to the raw text, and its title contains
the directive token `"@home"`. -/
theorem c3_fallback_counterexample :
    (parse_capture ⟨0, 0, 0⟩ fallbackInput).toOption.map (fun r => r.title) =
      some "@home #x" ∧
    "@home" ∈ splitWs "@home #x" ∧ strStartsWith "@home" "@" = true := by
  refine ⟨by rfl, by decide, by decide⟩

/-! ## C2 helper lemmas -/

theorem parseNatStrict_rev_digit {cs : List Char} {n : Nat} (h : parseNatStrict cs = some n) :
    ∃ c cs2, cs.reverse = c :: cs2 ∧ isDigitChar c = true := by
  unfold parseNatStrict at h
  split at h
  · rename_i hcond
    simp only [Bool.and_eq_true, decide_eq_true_eq, List.all_eq_true] at hcond
    obtain ⟨hne, hall⟩ := hcond
    cases hc : cs.reverse with
    | nil =>
      rw [List.reverse_eq_nil_iff] at hc
      exact absurd hc hne
    | cons c cs2 =>
      refine ⟨c, cs2, rfl, ?_⟩
      apply hall
      rw [← List.mem_reverse, hc]
      exact List.mem_cons_self _ _
  · exact Option.noConfusion h

theorem parse_u8_rev_digit {s : String} {n : Nat} (h : parse_u8 s = some n) :
    ∃ c cs, s.toList.reverse = c :: cs ∧ isDigitChar c = true := by
  unfold parse_u8 parseUnsigned at h
  cases hm : parseNatStrict (stripSign s.toList) with
  | none =>
    rw [hm] at h
    exact Option.noConfusion h
  | some m =>
    obtain ⟨c, cs2, hrev, hdig⟩ := parseNatStrict_rev_digit hm
    cases hl : s.toList with
    | nil =>
      rw [hl] at hrev
      simp [stripSign] at hrev
    | cons a rest =>
      rw [hl] at hrev
      rw [show stripSign (a :: rest) = if a = '+' then rest else a :: rest from rfl] at hrev
      by_cases ha : a = '+'
      · rw [if_pos ha] at hrev
        subst ha
        rw [List.reverse_cons, hrev]
        exact ⟨c, cs2 ++ ['+'], rfl, hdig⟩
      · rw [if_neg ha] at hrev
        exact ⟨c, cs2, hrev, hdig⟩

theorem digit_not_punct {c : Char} (h : isDigitChar c = true) : isPunctChar c = false := by
  unfold isDigitChar at h
  unfold isPunctChar
  simp only [Bool.and_eq_true, decide_eq_true_eq] at h
  simp only [Bool.or_eq_false_iff, Bool.and_eq_false_iff, decide_eq_false_iff_not]
  omega

/-- A `p:`-token whose payload parses as `u8` has no trailing
punctuation to strip (its last character is a digit). -/
theorem strip_p_token {s : String} {n : Nat} (h : parse_u8 s = some n) :
    strip_trailing_punctuation ("p:" ++ s) = ("p:" ++ s, none) := by
  obtain ⟨c, cs, hrev, hdig⟩ := parse_u8_rev_digit h
  unfold strip_trailing_punctuation
  have hlist : ("p:" ++ s).toList = 'p' :: ':' :: s.toList := rfl
  have hrev2 : ("p:" ++ s).toList.reverse = c :: (cs ++ [':', 'p']) := by
    rw [hlist, List.reverse_cons, List.reverse_cons, hrev]
    simp
  rw [hrev2, List.takeWhile_cons, digit_not_punct hdig]
  simp

theorem strDrop_p (s : String) : strDrop ("p:" ++ s) 2 = s := strMk_toList s

theorem parse_u8_le_255 : ∀ (s : String) (n : Nat), parse_u8 s = some n → n ≤ 255 := by
  intro s n h
  unfold parse_u8 parseUnsigned at h
  cases hm : parseNatStrict (stripSign s.toList) with
  | none =>
    rw [hm] at h
    exact Option.noConfusion h
  | some m =>
    rw [hm] at h
    dsimp only at h
    split at h
    · rename_i hb
      injection h with h
      omega
    · exact Option.noConfusion h

/-! ## C2 -/

/-- C2 (amended): a structured priority override is clamped to at most 3
and never rejected; an inline `p:<spec>` token whose spec parses as a
`u8` (optional `+`, digits, value at most 255) is accepted and clamped
to at most 3 — but the inline spec is parsed as a `u8`, so an integer
outside that range (e.g. `p:300`) is a parse failure, not a clamp. -/
theorem c2_priority_clamp :
    (∀ (c : LocalClock) (input : CaptureInput) (p : Nat) (r : ParsedTask),
      input.priority = some p → parse_capture c input = .ok r →
      r.task.priority = min p 3) ∧
    (∀ (c : LocalClock) (st : InlineTokens × Option Int) (s : String) (n : Nat),
      parse_u8 s = some n →
      inlineStep c st ("p:" ++ s) = .ok ({ st.1 with priority := some (min n 3) }, st.2)) ∧
    (∀ (s : String) (n : Nat), parse_u8 s = some n → n ≤ 255) := by
  refine ⟨?_, ?_, parse_u8_le_255⟩
  · intro c input p r hp h
    obtain ⟨inline, energy, d1, d2, d3, hi, _, _, _, _, hrest⟩ := parse_capture_ok_inv h
    obtain ⟨hne, hr⟩ := hrest
    subst hr
    dsimp only [captureResult]
    rw [hp]
  · intro c st s n h
    unfold inlineStep
    rw [strip_p_token h]
    unfold inlineStepCore
    rw [show strDrop (("p:" ++ s, (none : Option String)).1) 2 = s from strDrop_p s]
    rw [h]
    rfl

def priorityInput : CaptureInput := { text := ["x"], priority := some 9 }

def priorityParsed : ParsedTask :=
  { task := { title := "x", status := .inbox, priority := 3 }, title := "x", status := .inbox }

example : parse_capture ⟨0, 0, 0⟩ priorityInput = .ok priorityParsed := by rfl

/-- Witness for C2 at concrete inputs: structured priority 9 clamps to
3, and the inline token `p:9` clamps to 3 without failing. -/
theorem c2_priority_clamp_witness :
    priorityParsed.task.priority = min 9 3 ∧
    inlineStep ⟨0, 0, 0⟩ ({}, none) ("p:" ++ "9") =
      .ok ({ ({} : InlineTokens) with priority := some (min 9 3) }, none) ∧
    9 ≤ 255 :=
  ⟨c2_priority_clamp.1 ⟨0, 0, 0⟩ priorityInput 9 priorityParsed rfl (by rfl),
   c2_priority_clamp.2.1 ⟨0, 0, 0⟩ ({}, none) "9" 9 (by decide),
   c2_priority_clamp.2.2 "9" 9 (by decide)⟩

/-- Counterexample to C2 as stated: `p:300` carries an integer spec, yet
the capture fails (u8 overflow) instead of clamping to 3. -/
theorem c2_overflow_rejected_counterexample :
    exceptIsOk (parse_capture ⟨0, 0, 0⟩ { text := ["x", "p:300"] }) = false ∧
    parse_i64 "300" = some 300 := by
  refine ⟨by decide, by decide⟩

/-! ## C7 helper lemmas -/

theorem weekdayDaysAhead_spec (c : LocalClock) (w : Int) (h0 : 0 ≤ w) (h7 : w < 7) :
    1 ≤ weekdayDaysAhead c w ∧ weekdayDaysAhead c w ≤ 7 ∧
    num_days_from_monday (c.day + weekdayDaysAhead c w) = w ∧
    (num_days_from_monday c.day = w → weekdayDaysAhead c w = 7) := by
  unfold weekdayDaysAhead num_days_from_monday
  by_cases hz : (w - (c.day + 3) % 7) % 7 = 0
  · rw [if_pos hz]
    refine ⟨by norm_num, by norm_num, by omega, fun _ => rfl⟩
  · rw [if_neg hz]
    refine ⟨by omega, by omega, by omega, by omega⟩

/-- Core of the weekday-resolution claim: once the lowered spec is a
recognized weekday label, the resolver output is local 09:00 of the next
strictly-future occurrence. -/
theorem c7_core {c : LocalClock} {s : String} {w : Int} {lit : String}
    (hl : toAsciiLower (strTrim s) = lit)
    (hlit : parse_weekday lit = some w)
    (hlit0 : lit ≠ "") (hnow : lit ≠ "now") (htod : lit ≠ "today") (htom : lit ≠ "tomorrow")
    (hplus : strStartsWith lit "+" = false)
    (h0 : 0 ≤ w) (h7 : w < 7) :
    ∃ da : Int, parse_date_spec c s = .ok (localToUtc c (c.day + da) 32400) ∧
      1 ≤ da ∧ da ≤ 7 ∧ num_days_from_monday (c.day + da) = w ∧
      (num_days_from_monday c.day = w → da = 7) := by
  have hne : strTrim s ≠ "" := by
    intro he
    apply hlit0
    rw [← hl, he]
    rfl
  unfold parse_date_spec
  dsimp only
  rw [hl]
  rw [if_neg hne, if_neg hnow, if_neg htod, if_neg htom]
  rw [if_neg (by simp [hplus])]
  rw [hlit]
  exact ⟨weekdayDaysAhead c w, rfl, (weekdayDaysAhead_spec c w h0 h7).1,
    (weekdayDaysAhead_spec c w h0 h7).2.1, (weekdayDaysAhead_spec c w h0 h7).2.2.1,
    (weekdayDaysAhead_spec c w h0 h7).2.2.2⟩

/-! ## C7 -/

/-- C7: a weekday-name date spec (full name or 3-letter abbreviation)
resolves to local 09:00 of the next occurrence of that weekday strictly
after today — between 1 and 7 days ahead, and exactly 7 days ahead when
today already is that weekday. -/
theorem c7_weekday_resolution : ∀ (c : LocalClock) (s : String) (w : Int),
    parse_weekday (toAsciiLower (strTrim s)) = some w →
    ∃ da : Int, parse_date_spec c s = .ok (localToUtc c (c.day + da) 32400) ∧
      1 ≤ da ∧ da ≤ 7 ∧ num_days_from_monday (c.day + da) = w ∧
      (num_days_from_monday c.day = w → da = 7) := by
  intro c s w hw
  have hcopy := hw
  unfold parse_weekday at hw
  split at hw
  all_goals try split at hw
  all_goals try split at hw
  all_goals try split at hw
  all_goals try split at hw
  all_goals try split at hw
  all_goals try split at hw
  all_goals
    first
    | exact Option.noConfusion hw
    | (rename_i hcond
       injection hw with hw
       subst hw
       rcases hcond with hl | hl <;>
         exact c7_core hl (by decide) (by decide) (by decide) (by decide) (by decide)
           (by decide) (by norm_num) (by norm_num))

/-- Witness for C7: resolving `"monday"` when today (day index 4,
1970-01-05) is a Monday gives exactly 7 days ahead at local 09:00. -/
theorem c7_weekday_resolution_witness :
    ∃ da : Int, parse_date_spec ⟨4, 3600, 0⟩ "monday" =
        .ok (localToUtc ⟨4, 3600, 0⟩ ((4 : Int) + da) 32400) ∧
      1 ≤ da ∧ da ≤ 7 ∧ num_days_from_monday ((4 : Int) + da) = 0 ∧
      (num_days_from_monday (4 : Int) = 0 → da = 7) :=
  c7_weekday_resolution ⟨4, 3600, 0⟩ "monday" 0 (by decide)

example : parse_date_spec ⟨4, 3600, 0⟩ "monday" = .ok (11 * 86400 + 32400) := by rfl

/-! ## C5 helper lemma -/

theorem parse_relative_spec_err_iff (c : LocalClock) (s : String) :
    exceptIsOk (parse_relative_spec c s) = false ↔ relative_fails s = true := by
  unfold parse_relative_spec relative_fails
  dsimp only
  by_cases h3 : strLength s < 3
  · rw [if_pos h3, if_pos h3]
    simp [exceptIsOk]
  · rw [if_neg h3, if_neg h3]
    cases hp : parse_i64 (strDropRight (strDrop s 1) 1) with
    | none => simp [exceptIsOk]
    | some v =>
      dsimp only
      by_cases hd : strDrop s (strLength s - 1) = "d"
      · rw [if_pos hd, if_pos (Or.inl hd)]
        simp [exceptIsOk]
      · rw [if_neg hd]
        by_cases hw : strDrop s (strLength s - 1) = "w"
        · rw [if_pos hw, if_pos (Or.inr hw)]
          simp [exceptIsOk]
        · rw [if_neg hw, if_neg (show ¬(strDrop s (strLength s - 1) = "d" ∨
            strDrop s (strLength s - 1) = "w") from fun h => h.elim hd hw)]
          by_cases hm : strDrop s (strLength s - 1) = "m"
          · rw [if_pos hm, if_pos hm]
            by_cases hr : (0 : Int) ≤ v ∧ v ≤ 4294967295
            · rw [if_pos hr]
              simp [exceptIsOk, hr]
            · rw [if_neg hr]
              simp [exceptIsOk, hr]
          · rw [if_neg hm, if_neg hm]
            simp [exceptIsOk]

/-! ## C5 -/

/-- C5 (amended): the date resolver fails exactly when the spec is
empty/whitespace, or is a `+`-prefixed relative expression whose length
is under 3, whose magnitude does not parse as an `i64`, whose unit is
not d/w/m, or whose unit is m with a magnitude outside the `u32` range
(in particular every negative month offset fails), or matches no
recognized form (none of now/today/tomorrow, weekday name, RFC 3339
timestamp, `YYYY-MM-DD`, `HH:MM`); every other input succeeds. -/
theorem c5_failure_characterization : ∀ (c : LocalClock) (s : String),
    exceptIsOk (parse_date_spec c s) = false ↔
      (strTrim s = "" ∨
       (strStartsWith (toAsciiLower (strTrim s)) "+" = true ∧
        relative_fails (toAsciiLower (strTrim s)) = true) ∨
       (strStartsWith (toAsciiLower (strTrim s)) "+" = false ∧
        toAsciiLower (strTrim s) ≠ "now" ∧ toAsciiLower (strTrim s) ≠ "today" ∧
        toAsciiLower (strTrim s) ≠ "tomorrow" ∧
        parse_weekday (toAsciiLower (strTrim s)) = none ∧
        parse_rfc3339 (strTrim s) = none ∧ parse_ymd (strTrim s) = none ∧
        parse_hm (strTrim s) = none)) := by
  intro c s
  unfold parse_date_spec
  dsimp only
  by_cases h0 : strTrim s = ""
  · rw [if_pos h0]
    exact ⟨fun _ => Or.inl h0, fun _ => rfl⟩
  · rw [if_neg h0]
    by_cases hn : toAsciiLower (strTrim s) = "now"
    · rw [if_pos hn]
      constructor
      · intro hc
        exact absurd hc (by simp [exceptIsOk])
      · rintro (hc | ⟨h1, _⟩ | ⟨_, h2, _⟩)
        · exact absurd hc h0
        · rw [hn] at h1
          exact absurd h1 (by decide)
        · exact absurd hn h2
    · rw [if_neg hn]
      by_cases ht : toAsciiLower (strTrim s) = "today"
      · rw [if_pos ht]
        constructor
        · intro hc
          exact absurd hc (by simp [exceptIsOk])
        · rintro (hc | ⟨h1, _⟩ | ⟨_, _, h2, _⟩)
          · exact absurd hc h0
          · rw [ht] at h1
            exact absurd h1 (by decide)
          · exact absurd ht h2
      · rw [if_neg ht]
        by_cases htm : toAsciiLower (strTrim s) = "tomorrow"
        · rw [if_pos htm]
          constructor
          · intro hc
            exact absurd hc (by simp [exceptIsOk])
          · rintro (hc | ⟨h1, _⟩ | ⟨_, _, _, h2, _⟩)
            · exact absurd hc h0
            · rw [htm] at h1
              exact absurd h1 (by decide)
            · exact absurd htm h2
        · rw [if_neg htm]
          by_cases hp : strStartsWith (toAsciiLower (strTrim s)) "+" = true
          · rw [if_pos hp]
            rw [parse_relative_spec_err_iff]
            constructor
            · intro hr
              exact Or.inr (Or.inl ⟨hp, hr⟩)
            · rintro (hc | ⟨_, hr⟩ | ⟨h1, _⟩)
              · exact absurd hc h0
              · exact hr
              · rw [hp] at h1
                exact Bool.noConfusion h1
          · rw [if_neg hp]
            have hpf : strStartsWith (toAsciiLower (strTrim s)) "+" = false := by
              cases hx : strStartsWith (toAsciiLower (strTrim s)) "+"
              · rfl
              · exact absurd hx hp
            cases hwk : parse_weekday (toAsciiLower (strTrim s)) with
            | some w =>
              constructor
              · intro hc
                exact absurd hc (by simp [exceptIsOk])
              · rintro (hc | ⟨h1, _⟩ | ⟨_, _, _, _, h2, _⟩)
                · exact absurd hc h0
                · exact absurd h1 hp
                · exact Option.noConfusion h2
            | none =>
              cases hr3 : parse_rfc3339 (strTrim s) with
              | some t =>
                constructor
                · intro hc
                  exact absurd hc (by simp [exceptIsOk])
                · rintro (hc | ⟨h1, _⟩ | ⟨_, _, _, _, _, h2, _⟩)
                  · exact absurd hc h0
                  · exact absurd h1 hp
                  · exact Option.noConfusion h2
              | none =>
                cases hymd : parse_ymd (strTrim s) with
                | some d =>
                  constructor
                  · intro hc
                    exact absurd hc (by simp [exceptIsOk])
                  · rintro (hc | ⟨h1, _⟩ | ⟨_, _, _, _, _, _, h2, _⟩)
                    · exact absurd hc h0
                    · exact absurd h1 hp
                    · exact Option.noConfusion h2
                | none =>
                  cases hhm : parse_hm (strTrim s) with
                  | some secs =>
                    constructor
                    · intro hc
                      exact absurd hc (by simp [exceptIsOk])
                    · rintro (hc | ⟨h1, _⟩ | ⟨_, _, _, _, _, _, _, h2⟩)
                      · exact absurd hc h0
                      · exact absurd h1 hp
                      · exact Option.noConfusion h2
                  | none =>
                    constructor
                    · intro _
                      exact Or.inr (Or.inr ⟨hpf, hn, ht, htm, rfl, rfl, rfl, rfl⟩)
                    · intro _
                      rfl

/-- Counterexample to C5 as stated: `"+-1m"` is non-empty, its unit is
`m`, its magnitude `-1` parses as an integer, and it matches the
relative-expression form — none of the claimed failure modes — yet the
resolver rejects it (the month offset is converted to `u32`). -/
theorem c5_negative_month_counterexample :
    exceptIsOk (parse_date_spec ⟨0, 0, 0⟩ "+-1m") = false ∧
    parse_i64 "-1" = some (-1) ∧
    strDrop "+-1m" (strLength "+-1m" - 1) = "m" ∧
    strTrim "+-1m" ≠ "" := by
  refine ⟨by decide, by decide, by decide, by decide⟩
